import Mathlib

/-!
Photon tracer: pinhole camera, triangle emitter and light-tracing integrator.

A shallow embedding of `src/render/camera.hpp`, `src/emitter/triangle.hpp` and
`src/integrator/lt.hpp`.

Number model.  The C++ code computes with `double` and `float`.  Here every
floating-point quantity is an element of a linear ordered field `K` and all
operations are exact: there is no rounding, no overflow, no NaN, and a division
by zero yields `0` (the convention of Lean fields).  The square root used by
`Double3::magnitude` is a parameter `sqrt : K → K`; theorems that depend on its
behaviour assume `IsSqrt sqrt`.  All definitions are computable (for instance at
`K = ℚ`); closed statements are given at `K = ℝ` with `Real.sqrt`.
Integer quantities (`std::uint8_t`, `std::uint16_t`) are natural numbers reduced
modulo `2^8`, `2^16` where the code can wrap.
-/

namespace PhotonTracer

/-! ## Vectors -/

/-- Modelled from the spec: the three-component vector type `Double3` of
`mathematics/double3.hpp`, which is not part of the given sources. -/
structure Double3 (K : Type) where
  x : K
  y : K
  z : K
deriving DecidableEq, Repr

/-- Specification of the square-root parameter: on non-negative arguments it
returns the non-negative root. -/
def IsSqrt {K : Type} [LinearOrderedField K] (sqrt : K → K) : Prop :=
  ∀ a : K, 0 ≤ a → 0 ≤ sqrt a ∧ sqrt a * sqrt a = a

namespace Double3

variable {K : Type} [LinearOrderedField K]

/-- Modelled from the spec: `Double3::Zero`. -/
def Zero : Double3 K := ⟨0, 0, 0⟩

/-- Modelled from the spec: `Double3::X`, the first world axis. -/
def X : Double3 K := ⟨1, 0, 0⟩

/-- Modelled from the spec: `Double3::Y`, the second world axis. -/
def Y : Double3 K := ⟨0, 1, 0⟩

/-- Modelled from the spec: `Double3::Z`, the third world axis. -/
def Z : Double3 K := ⟨0, 0, 1⟩

/-- Modelled from the spec: component-wise `operator+` of `Double3`. -/
def add (a b : Double3 K) : Double3 K := ⟨a.x + b.x, a.y + b.y, a.z + b.z⟩

/-- Modelled from the spec: component-wise binary `operator-` of `Double3`. -/
def sub (a b : Double3 K) : Double3 K := ⟨a.x - b.x, a.y - b.y, a.z - b.z⟩

/-- Modelled from the spec: unary `operator-` of `Double3`. -/
def neg (a : Double3 K) : Double3 K := ⟨-a.x, -a.y, -a.z⟩

/-- Modelled from the spec: `operator*` of `Double3` with a scalar. -/
def scale (a : Double3 K) (s : K) : Double3 K := ⟨a.x * s, a.y * s, a.z * s⟩

/-- Modelled from the spec: `operator/` of `Double3` by a scalar. -/
def divide (a : Double3 K) (s : K) : Double3 K := ⟨a.x / s, a.y / s, a.z / s⟩

/-- Modelled from the spec: `Double3::dot`, the Euclidean inner product. -/
def dot (a b : Double3 K) : K := a.x * b.x + a.y * b.y + a.z * b.z

/-- Modelled from the spec: `Double3::cross`, the right-handed vector product. -/
def cross (a b : Double3 K) : Double3 K :=
  ⟨a.y * b.z - a.z * b.y, a.z * b.x - a.x * b.z, a.x * b.y - a.y * b.x⟩

/-- Modelled from the spec: `Double3::magnitude`, the Euclidean length, computed
with the square-root parameter. -/
def magnitude (sqrt : K → K) (a : Double3 K) : K := sqrt (a.dot a)

/-- Modelled from the spec: `Double3::normalise`, the vector divided by its
magnitude. -/
def normalise (sqrt : K → K) (a : Double3 K) : Double3 K := a.divide (a.magnitude sqrt)

end Double3

/-! ## Random generator and ray sections -/

/-- Modelled from the spec: the interface of `Random::Mersenne` used by the
camera.  A generator state has type `R`; `get_float` returns a value and the
advanced state. -/
structure Mersenne (K R : Type) where
  get_float : R → K × R

/-- Modelled from the spec: `Ray::Section`, an origin, a direction and a
minimum-distance offset.  `epsilon = none` stands for the default of the
two-argument constructor. -/
structure Section (K : Type) where
  origin : Double3 K
  direction : Double3 K
  epsilon : Option K

/-- Modelled from the spec: the fields of `Render::Config` read by the camera and
the integrator. -/
structure Config where
  image_width : Nat
  image_height : Nat
  max_path_length : Nat
  max_samples : Nat
deriving DecidableEq, Repr

/-! ## Camera (`render/camera.hpp`) -/

/-- The data members of `Render::Camera`. -/
structure Camera (K : Type) where
  aspect_ratio : K
  image_width : Nat
  image_height : Nat
  position : Double3 K
  forward : Double3 K
  right : Double3 K
  up : Double3 K
  sensor_area : K
  focal_length : K
  scalar : K
  dx : K
  dy : K

namespace Camera

variable {K : Type} [LinearOrderedField K]

/-- The constant `sensor_width`, in millimetres. -/
def sensor_width : K := 36

/-- The constant `sensor_height`, in millimetres. -/
def sensor_height : K := 24

/-- The choice of the world-up axis in the constructor:
`std::abs( forward.dot( Double3::Z ) ) < 0.99 ? Double3::Z : Double3::X`. -/
def world_up (forward : Double3 K) : Double3 K :=
  if |forward.dot Double3.Z| < 99 / 100 then Double3.Z else Double3.X

/-- The constructor `Camera( position, look_at, focal_length, config )`.  The
`std::invalid_argument` exception is the `error` result.  The members
`image_width`, `image_height` are 16-bit; `image_width - 1` is computed in
`int`. -/
def create (sqrt : K → K) (position look_at : Double3 K) (focal_length : K)
    (config : Config) : Except String (Camera K) :=
  let image_width := config.image_width % 65536
  let image_height := config.image_height % 65536
  let aspect_ratio : K := (config.image_width : K) / (config.image_height : K)
  let scalar : K := sensor_width / focal_length
  let sensor_area : K := scalar * scalar / aspect_ratio
  let delta := look_at.sub position
  if delta.magnitude sqrt < 1 / 1000 then
    Except.error "Camera position and view target are too close together!"
  else
    let forward := delta.normalise sqrt
    let right := (forward.cross (world_up forward)).normalise sqrt
    let up := ((right.cross forward).normalise sqrt).neg
    let dx : K := 1 / (((image_width : Int) - 1 : Int) : K)
    let dy : K := 1 / (((image_height : Int) - 1 : Int) : K)
    Except.ok
      { aspect_ratio := aspect_ratio
        image_width := image_width
        image_height := image_height
        position := position
        forward := forward
        right := right
        up := up
        sensor_area := sensor_area
        focal_length := focal_length
        scalar := scalar
        dx := dx
        dy := dy }

/-- The method `generate_ray( x, y, prng )`: two draws from the generator, then
the normalised direction through the jittered pixel. -/
def generate_ray {R : Type} (sqrt : K → K) (gen : Mersenne K R) (cam : Camera K)
    (x y : Nat) (prng : R) : Section K × R :=
  let r1 := gen.get_float prng
  let rnd_x : K := r1.1 - 1 / 2
  let r2 := gen.get_float r1.2
  let rnd_y : K := r2.1 - 1 / 2
  let dir :=
    (cam.forward.add
      ((cam.right.scale cam.scalar).scale (((x : K) + rnd_x) * cam.dx - 1 / 2))).add
      (((cam.up.scale cam.scalar).divide cam.aspect_ratio).scale
        (((y : K) + rnd_y) * cam.dy - 1 / 2))
  (⟨cam.position, dir.normalise sqrt, none⟩, r2.2)

/-- The method `sample_lens( prng )`: the pinhole position; the generator is not
advanced. -/
def sample_lens {R : Type} (cam : Camera K) (prng : R) : Double3 K × R :=
  (cam.position, prng)

/-- The cosine computed at the start of `sensor` and `pdf`: the dot product of
the normalised direction `world_point - position` with `forward`. -/
def cos_theta (sqrt : K → K) (cam : Camera K) (world_point : Double3 K) : K :=
  ((world_point.sub cam.position).normalise sqrt).dot cam.forward

/-- The normalised sensor coordinate `x` of `sensor` and `pdf`. -/
def sensor_x (sqrt : K → K) (cam : Camera K) (world_point : Double3 K) : K :=
  ((world_point.sub cam.position).normalise sqrt).dot cam.right
    / (cos_theta sqrt cam world_point * cam.scalar)

/-- The normalised sensor coordinate `y` of `sensor` and `pdf`. -/
def sensor_y (sqrt : K → K) (cam : Camera K) (world_point : Double3 K) : K :=
  ((world_point.sub cam.position).normalise sqrt).dot cam.up
    / (cos_theta sqrt cam world_point * cam.scalar / cam.aspect_ratio)

/-- The method `sensor( world_point, lens_point )`, returning
`( pixel_x, pixel_y, valid )`; the value-initialised coordinates of the rejected
cases are `0`. -/
def sensor (sqrt : K → K) (cam : Camera K) (world_point lens_point : Double3 K) :
    K × K × Bool :=
  let evaluate_direction := (world_point.sub cam.position).normalise sqrt
  let cos_theta := evaluate_direction.dot cam.forward
  if cos_theta ≤ 0 then (0, 0, false)
  else
    let x := evaluate_direction.dot cam.right / (cos_theta * cam.scalar)
    let y := evaluate_direction.dot cam.up / (cos_theta * cam.scalar / cam.aspect_ratio)
    if |x| > 1 / 2 ∨ |y| > 1 / 2 then (0, 0, false)
    else ((x + 1 / 2) * (cam.image_width : K), (y + 1 / 2) * (cam.image_height : K), true)

/-- The method `pdf( world_point, lens_point )`. -/
def pdf (sqrt : K → K) (cam : Camera K) (world_point lens_point : Double3 K) : K :=
  let evaluate_direction := (world_point.sub cam.position).normalise sqrt
  let cos_theta := evaluate_direction.dot cam.forward
  if cos_theta ≤ 0 then 0
  else
    let x := evaluate_direction.dot cam.right / (cos_theta * cam.scalar)
    let y := evaluate_direction.dot cam.up / (cos_theta * cam.scalar / cam.aspect_ratio)
    if |x| > 1 / 2 ∨ |y| > 1 / 2 then 0
    else 1 / (cam.sensor_area / (cos_theta * cos_theta * cos_theta))

/-- The method `is_dirac()`. -/
def is_dirac (_cam : Camera K) : Bool := true

end Camera

/-! ## Colours and sampling routines -/

/-- Modelled from the spec: the type `Colour` of `colour/colour.hpp`, an RGB
triple with component-wise arithmetic. -/
structure Colour (K : Type) where
  r : K
  g : K
  b : K
deriving DecidableEq, Repr

namespace Colour

variable {K : Type} [LinearOrderedField K]

/-- Modelled from the spec: `operator*` of `Colour` with a scalar. -/
def scale (c : Colour K) (s : K) : Colour K := ⟨c.r * s, c.g * s, c.b * s⟩

/-- Modelled from the spec: `operator/` of `Colour` by a scalar. -/
def divide (c : Colour K) (s : K) : Colour K := ⟨c.r / s, c.g / s, c.b / s⟩

/-- Modelled from the spec: component-wise `operator*` of two `Colour`s. -/
def mul (c d : Colour K) : Colour K := ⟨c.r * d.r, c.g * d.g, c.b * d.b⟩

end Colour

/-- Modelled from the spec: the constant `inv_pi` of `mathematics/constant.hpp`,
the reciprocal of the circle constant, which is a parameter. -/
def inv_pi {K : Type} [LinearOrderedField K] (pi : K) : K := 1 / pi

/-- Modelled from the spec: the sampling routines `Sample::Triangle` and
`Sample::HemiSphere` (`sample/triangle.hpp`, `sample/hemisphere.hpp`) and the
local frame `Orthogonal` (`mathematics/orthogonal.hpp`), none of which is part
of the given sources.  `O` is the type of a local frame. -/
structure Sampling (K R O : Type) where
  Triangle : R → (K × K) × R
  HemiSphere : R → Double3 K × R
  Orthogonal : Double3 K → O
  to_world : O → Double3 K → Double3 K

/-! ## Emitters (`emitter/polymorphic.hpp`, `emitter/triangle.hpp`) -/

namespace Emitter

/-- The enumeration `Emitter::Type`. -/
inductive Type_ where
  | Area
  | Directional
  | Environment
  | Point
deriving DecidableEq, Repr

/-- The tuple returned by `emit`: energy, point on the emitter, direction from
the emitter, `pdf_W`, `pdf_A`. -/
structure Sample (K : Type) where
  energy : Colour K
  point : Double3 K
  direction : Double3 K
  pdf_direction : K
  pdf_area : K

/-- The abstract class `Emitter::Polymorphic`: its three virtual methods. -/
structure Polymorphic (K R : Type) where
  emit : R → Sample K × R
  type : Type_
  is_dirac : Bool

/-- The data members of `Emitter::Triangle`. -/
structure Triangle (K O : Type) where
  position : Double3 K
  edge1 : Double3 K
  edge2 : Double3 K
  normal : Double3 K
  local_space : O
  energy : Colour K
  pdf_area : K

namespace Triangle

variable {K : Type} [LinearOrderedField K] {R O : Type}

/-- The constructor `Triangle( a, b, c, energy )`. -/
def create (sqrt : K → K) (smp : Sampling K R O) (a b c : Double3 K)
    (energy : Colour K) : Triangle K O :=
  let edge1 := b.sub a
  let edge2 := c.sub a
  let cross_product := edge1.cross edge2
  let normal := cross_product.normalise sqrt
  { position := a
    edge1 := edge1
    edge2 := edge2
    normal := normal
    local_space := smp.Orthogonal normal
    energy := energy
    pdf_area := 1 / (1 / 2 * cross_product.magnitude sqrt) }

/-- The method `emit( prng )`. -/
def emit (pi : K) (smp : Sampling K R O) (t : Triangle K O) (prng : R) : Sample K × R :=
  let uv := smp.Triangle prng
  let u := uv.1.1
  let v := uv.1.2
  let point := (t.position.add (t.edge1.scale u)).add (t.edge2.scale v)
  let ls := smp.HemiSphere uv.2
  let local_sample := ls.1
  let direction := smp.to_world t.local_space local_sample
  ({ energy := t.energy.scale local_sample.z
     point := point
     direction := direction
     pdf_direction := inv_pi pi * local_sample.z
     pdf_area := t.pdf_area }, ls.2)

/-- The method `type()`. -/
def type (_t : Triangle K O) : Type_ := Type_.Area

/-- The method `is_dirac()`. -/
def is_dirac (_t : Triangle K O) : Bool := false

/-- A triangle emitter seen through the `Polymorphic` interface. -/
def toPolymorphic (pi : K) (smp : Sampling K R O) (t : Triangle K O) : Polymorphic K R :=
  { emit := emit pi smp t, type := type t, is_dirac := is_dirac t }

end Triangle

end Emitter

/-! ## Scattering interface and scene (consumed interfaces) -/

namespace BxDF

/-- Modelled from the spec: the enumeration `BxDF::Event` of
`bxdf/polymorphic.hpp`.  `Other` stands for any enumerator that the switch of
the integrator does not name (its `default` label). -/
inductive Event where
  | None
  | Emission
  | Diffuse
  | Reflect
  | Other
deriving DecidableEq, Repr

/-- Modelled from the spec: the enumeration `BxDF::TraceMode`. -/
inductive TraceMode where
  | Radiance
  | Importance
deriving DecidableEq, Repr

/-- The tuple returned by `BxDF::Polymorphic::sample`. -/
structure Sampled (K : Type) where
  colour : Colour K
  direction : Double3 K
  event : Event
  pdf_W : K
  cos_theta : K

/-- The tuple returned by `BxDF::Polymorphic::evaluate`. -/
structure Evaluated (K : Type) where
  colour : Colour K
  pdf_W : K
  cos_theta : K

end BxDF

/-- Modelled from the spec: the interaction record returned by
`scene.intersect`; `rest : X` holds the fields the integrator does not read. -/
structure Interaction (K X : Type) where
  point : Double3 K
  from_direction : Double3 K
  material_id : Nat
  rest : X

namespace BxDF

/-- Modelled from the spec: the abstract class `BxDF::Polymorphic`, its methods
`sample` and `evaluate`. -/
structure Polymorphic (K R X : Type) where
  sample : Interaction K X → TraceMode → R → Sampled K × R
  evaluate : Double3 K → Double3 K → Interaction K X → TraceMode → Evaluated K

end BxDF

/-- Modelled from the spec: the methods of `Render::Scene` called by the
integrator.  `intersect` returns `( f_hit, hit_distance, idata )`. -/
structure Scene (K R X : Type) where
  random_emitter : R → Nat × R
  emitter : Nat → Emitter.Polymorphic K R × K
  intersect : Section K → Bool × K × Interaction K X
  occluded : Section K → K → Bool
  material : Nat → BxDF.Polymorphic K R X

/-- One call of `sensor.splash( x, y, colour )`. -/
structure Splash (K : Type) where
  x : K
  y : K
  colour : Colour K

/-! ## Light-tracing integrator (`integrator/lt.hpp`) -/

namespace Integrator

/-- The members of `Integrator::LT` fixed at construction, together with the
free function `ShadingCorrection`, the constant `EPSILON_RAY` and the
constructor of the random generator, which are not part of the given sources
and are parameters. -/
structure LT (K R X : Type) where
  max_path_length : Nat
  max_samples : Nat
  camera : Camera K
  scene : Scene K R X
  ShadingCorrection : Double3 K → Double3 K → Interaction K X → BxDF.TraceMode → K
  EPSILON_RAY : K
  seed : Nat → R

/-- The mutable state seen by `trace_emission_path`: the generator `prng`, the
splashes received by the sensor (latest first), and two counters that are not in
the source: the number of calls of `scene.intersect` and of `material.sample`. -/
structure State (K R : Type) where
  prng : R
  splashes : List (Splash K)
  intersections : Nat
  scatterings : Nat

/-- The local variables of the trace loop that live across iterations. -/
structure Path (K : Type) where
  throughput : Colour K
  ray : Section K
  depth : Nat

variable {K : Type} [LinearOrderedField K] {R X : Type}

/-- The constructor `LT( camera, sensor, scene, config )`: `max_path_length` is
stored in 8 bits and `max_samples` in 16 bits. -/
def LT.create (camera : Camera K) (scene : Scene K R X) (config : Config)
    (ShadingCorrection : Double3 K → Double3 K → Interaction K X → BxDF.TraceMode → K)
    (EPSILON_RAY : K) (seed : Nat → R) : LT K R X :=
  { max_path_length := config.max_path_length % 256
    max_samples := config.max_samples % 65536
    camera := camera
    scene := scene
    ShadingCorrection := ShadingCorrection
    EPSILON_RAY := EPSILON_RAY
    seed := seed }

/-- The camera connection of the `Diffuse` case: the splashes after the
`if ( f_valid )` block. -/
def connect (sqrt : K → K) (lt : LT K R X) (lens_point : Double3 K)
    (p_material : BxDF.Polymorphic K R X) (idata : Interaction K X)
    (throughput : Colour K) (splashes : List (Splash K)) : List (Splash K) :=
  let s := lt.camera.sensor sqrt idata.point lens_point
  if s.2.2 then
    let delta := idata.point.sub lens_point
    let evaluate_direction := delta.normalise sqrt
    let evaluate_distance := delta.magnitude sqrt
    let ray : Section K := ⟨lens_point, evaluate_direction, some lt.EPSILON_RAY⟩
    if !lt.scene.occluded ray (evaluate_distance - 2 * lt.EPSILON_RAY) then
      let e := p_material.evaluate evaluate_direction.neg idata.from_direction idata
        BxDF.TraceMode.Importance
      { x := s.1
        y := s.2.1
        colour :=
          ((((throughput.scale
                (lt.ShadingCorrection evaluate_direction idata.from_direction idata
                  BxDF.TraceMode.Importance)).mul e.colour).scale e.cos_theta).scale
              (lt.camera.pdf sqrt idata.point lens_point)).divide
            (evaluate_distance * evaluate_distance) } :: splashes
    else splashes
  else splashes

/-- The result of the event switch for one hit: `none` when the switch returns
from the function, otherwise the updated throughput. -/
def scatter (lt : LT K R X) (idata : Interaction K X) (b : BxDF.Sampled K)
    (throughput : Colour K) : Option (Colour K) :=
  match b.event with
  | BxDF.Event.Diffuse =>
    some (throughput.mul (b.colour.scale
      (b.cos_theta / b.pdf_W *
        lt.ShadingCorrection b.direction idata.from_direction idata
          BxDF.TraceMode.Importance)))
  | BxDF.Event.Reflect =>
    some (throughput.mul (b.colour.scale
      (lt.ShadingCorrection b.direction idata.from_direction idata
        BxDF.TraceMode.Importance)))
  | _ => none

/-- The body of the `while ( 1 )` loop of `trace_emission_path`: one iteration.
The result is the state after the iteration and, when the loop goes round again,
the loop variables of the next iteration; `none` when the iteration leaves the
loop (by `return` or `break`).  `depth` is an 8-bit counter: `++depth` wraps
modulo 256. -/
def trace_step (sqrt : K → K) (lt : LT K R X) (lens_point : Double3 K) (path : Path K)
    (st : State K R) : State K R × Option (Path K) :=
  let hit := lt.scene.intersect path.ray
  let idata := hit.2.2
  let st1 : State K R := { st with intersections := st.intersections + 1 }
  if !hit.1 then (st1, none)
  else
    let p_material := lt.scene.material idata.material_id
    let sampled := p_material.sample idata BxDF.TraceMode.Importance st1.prng
    let b := sampled.1
    let st2 : State K R :=
      { st1 with prng := sampled.2, scatterings := st1.scatterings + 1 }
    let st3 : State K R :=
      match b.event with
      | BxDF.Event.Diffuse =>
        { st2 with
          splashes := connect sqrt lt lens_point p_material idata path.throughput
            st2.splashes }
      | _ => st2
    match scatter lt idata b path.throughput with
    | none => (st3, none)
    | some throughput =>
      let depth := (path.depth + 1) % 256
      if depth > lt.max_path_length then (st3, none)
      else
        (st3, some
          { throughput := throughput
            ray := ⟨idata.point, b.direction, some lt.EPSILON_RAY⟩
            depth := depth })

/-- The `while ( 1 )` loop of `trace_emission_path`.  Each iteration consumes one
unit of `fuel`; the result is `none` when the fuel runs out before the loop is
left. -/
def trace_loop (sqrt : K → K) (lt : LT K R X) (lens_point : Double3 K) :
    Nat → Path K → State K R → Option (State K R)
  | 0, _, _ => none
  | fuel + 1, path, st =>
    match trace_step sqrt lt lens_point path st with
    | (st1, none) => some st1
    | (st1, some next) => trace_loop sqrt lt lens_point fuel next st1

/-- The method `trace_emission_path()`, with `fuel` bounding the number of loop
iterations. -/
def trace_emission_path (sqrt : K → K) (lt : LT K R X) (fuel : Nat) (st : State K R) :
    Option (State K R) :=
  let re := lt.scene.random_emitter st.prng
  let emitter_id := re.1
  let em := lt.scene.emitter emitter_id
  let p_emitter := em.1
  let emitter_select_probability := em.2
  let emitted := p_emitter.emit re.2
  let e := emitted.1
  let throughput :=
    e.energy.divide (emitter_select_probability * e.pdf_direction * e.pdf_area)
  let ray : Section K := ⟨e.point, e.direction, some lt.EPSILON_RAY⟩
  let lens := lt.camera.sample_lens emitted.2
  trace_loop sqrt lt lens.1 fuel { throughput := throughput, ray := ray, depth := 1 }
    { st with prng := lens.2 }

/-- The seed computed by `process( x, y )` from the 16-bit pixel coordinates. -/
def process_seed (x y : Nat) : Nat := (x + 1) * 0x1337 + (y + 1) * 0xbeef

/-- The sample loop of `process`: `n` further calls of `trace_emission_path`, each
with the given `fuel`. -/
def process_loop (sqrt : K → K) (lt : LT K R X) (fuel : Nat) :
    Nat → State K R → Option (State K R)
  | 0, st => some st
  | n + 1, st =>
    match trace_emission_path sqrt lt fuel st with
    | none => none
    | some st1 => process_loop sqrt lt fuel n st1

/-- The method `process( x, y )`: reseed the generator, then run `max_samples`
emission paths. -/
def process (sqrt : K → K) (lt : LT K R X) (fuel : Nat) (x y : Nat) (st : State K R) :
    Option (State K R) :=
  process_loop sqrt lt fuel lt.max_samples { st with prng := lt.seed (process_seed x y) }

/-! ### Named parts of `trace_emission_path` -/

/-- The statements of `trace_emission_path` before the loop: the initial loop
variables (throughput, first ray, `depth = 1`), the sampled lens point and the
generator after the three draws. -/
def emission_start (lt : LT K R X) (prng : R) : Path K × Double3 K × R :=
  let re := lt.scene.random_emitter prng
  let em := lt.scene.emitter re.1
  let emitted := em.1.emit re.2
  let e := emitted.1
  let lens := lt.camera.sample_lens emitted.2
  ({ throughput := e.energy.divide (em.2 * e.pdf_direction * e.pdf_area)
     ray := ⟨e.point, e.direction, some lt.EPSILON_RAY⟩
     depth := 1 }, lens.1, lens.2)

/-- The interaction record `idata` of one loop iteration. -/
def step_idata (lt : LT K R X) (path : Path K) : Interaction K X :=
  (lt.scene.intersect path.ray).2.2

/-- The material `p_material` of one loop iteration. -/
def step_material (lt : LT K R X) (path : Path K) : BxDF.Polymorphic K R X :=
  lt.scene.material (step_idata lt path).material_id

/-- The tuple returned by `p_material->sample` in one loop iteration. -/
def step_sampled (lt : LT K R X) (path : Path K) (st : State K R) : BxDF.Sampled K :=
  ((step_material lt path).sample (step_idata lt path) BxDF.TraceMode.Importance st.prng).1

/-- The variable `evaluate_direction` of the `Diffuse` case: the normalised vector
`idata.point - lens_point`. -/
def evaluate_direction (sqrt : K → K) (lens_point : Double3 K) (idata : Interaction K X) :
    Double3 K :=
  (idata.point.sub lens_point).normalise sqrt

/-- The variable `evaluate_distance` of the `Diffuse` case. -/
def evaluate_distance (sqrt : K → K) (lens_point : Double3 K) (idata : Interaction K X) : K :=
  (idata.point.sub lens_point).magnitude sqrt

/-- The ray of the occlusion query of the `Diffuse` case. -/
def connection_ray (sqrt : K → K) (lt : LT K R X) (lens_point : Double3 K)
    (idata : Interaction K X) : Section K :=
  ⟨lens_point, evaluate_direction sqrt lens_point idata, some lt.EPSILON_RAY⟩

/-- The colour passed to `sensor.splash` in the `Diffuse` case, as the code
computes it. -/
def splash_value (sqrt : K → K) (lt : LT K R X) (lens_point : Double3 K)
    (p_material : BxDF.Polymorphic K R X) (idata : Interaction K X)
    (throughput : Colour K) : Colour K :=
  ((((throughput.scale
        (lt.ShadingCorrection (evaluate_direction sqrt lens_point idata) idata.from_direction
          idata BxDF.TraceMode.Importance)).mul
      ((p_material.evaluate (evaluate_direction sqrt lens_point idata).neg idata.from_direction
        idata BxDF.TraceMode.Importance).colour)).scale
      ((p_material.evaluate (evaluate_direction sqrt lens_point idata).neg idata.from_direction
        idata BxDF.TraceMode.Importance).cos_theta)).scale
      (lt.camera.pdf sqrt idata.point lens_point)).divide
    (evaluate_distance sqrt lens_point idata * evaluate_distance sqrt lens_point idata)

/-- The unit vector from the hit point to the lens point, in the words of the
specification (`toward_lens`). -/
def toward_lens (sqrt : K → K) (lens_point : Double3 K) (idata : Interaction K X) :
    Double3 K :=
  (lens_point.sub idata.point).normalise sqrt

/-- The splatted value in the words of the specification:
`throughput * shading_correction(toward_lens, incoming, interaction, Importance)
* evaluated_colour * evaluated_cos_theta * camera.pdf(hit_point, lens_point)
/ distance^2`, the material being evaluated in the pair (toward lens, incoming). -/
def spec_splash_value (sqrt : K → K) (lt : LT K R X) (lens_point : Double3 K)
    (p_material : BxDF.Polymorphic K R X) (idata : Interaction K X)
    (throughput : Colour K) : Colour K :=
  ((((throughput.scale
        (lt.ShadingCorrection (toward_lens sqrt lens_point idata) idata.from_direction
          idata BxDF.TraceMode.Importance)).mul
      ((p_material.evaluate (toward_lens sqrt lens_point idata) idata.from_direction
        idata BxDF.TraceMode.Importance).colour)).scale
      ((p_material.evaluate (toward_lens sqrt lens_point idata) idata.from_direction
        idata BxDF.TraceMode.Importance).cos_theta)).scale
      (lt.camera.pdf sqrt idata.point lens_point)).divide
    ((idata.point.sub lens_point).magnitude sqrt * (idata.point.sub lens_point).magnitude sqrt)

end Integrator

/-- The unnormalised vector `dir` of `generate_ray`, as a function of the two
sensor offsets `( x + rnd_x ) * dx - 0.5` and `( y + rnd_y ) * dy - 0.5`. -/
def pixel_direction {K : Type} [LinearOrderedField K] (cam : Camera K) (ξ η : K) :
    Double3 K :=
  (cam.forward.add ((cam.right.scale cam.scalar).scale ξ)).add
    (((cam.up.scale cam.scalar).divide cam.aspect_ratio).scale η)

/-! ## Concrete inputs used in closed statements -/

/-- The configuration of the scenario camera: a 4 x 2 image (aspect 2:1), path
length 3, one sample. -/
def frontConfig : Config :=
  { image_width := 4, image_height := 2, max_path_length := 3, max_samples := 1 }

/-- The members of the camera at the origin looking down `+Y` with focal length 50
on the 4 x 2 image of `frontConfig`. -/
def frontCamera (K : Type) [LinearOrderedField K] : Camera K :=
  { aspect_ratio := 2
    image_width := 4
    image_height := 2
    position := Double3.Zero
    forward := Double3.Y
    right := Double3.X
    up := ⟨0, 0, -1⟩
    sensor_area := 36 / 50 * (36 / 50) / 2
    focal_length := 50
    scalar := 36 / 50
    dx := 1 / 3
    dy := 1 }

/-- A generator whose every draw returns the same value `c`. -/
def constantGenerator {K : Type} (c : K) : Mersenne K Unit :=
  { get_float := fun r => (c, r) }

/-- A sampling record whose draws are constant: the barycentric pair
`(1/3, 1/3)` and the hemisphere sample at the pole, `(0, 0, 1)`.  The local frame
is represented by its normal and maps the pole sample to the normal. -/
def constantSampling (K : Type) [LinearOrderedField K] : Sampling K Unit (Double3 K) :=
  { Triangle := fun r => ((1 / 3, 1 / 3), r)
    HemiSphere := fun r => (Double3.Z, r)
    Orthogonal := fun n => n
    to_world := fun n v => n.scale v.z }

/-- A material that reflects every particle back along its incoming direction. -/
def mirrorMaterial (K : Type) [LinearOrderedField K] : BxDF.Polymorphic K Unit Unit :=
  { sample := fun idata _ r =>
      ({ colour := ⟨1, 1, 1⟩
         direction := idata.from_direction.neg
         event := BxDF.Event.Reflect
         pdf_W := 1
         cos_theta := 1 }, r)
    evaluate := fun _ _ _ _ => { colour := ⟨0, 0, 0⟩, pdf_W := 0, cos_theta := 0 } }

/-- A closed scene of mirrors: every ray hits a surface one unit along its
direction, and every surface carries `mirrorMaterial`.  The single emitter emits
from the origin along `+Z`. -/
def mirrorScene (K : Type) [LinearOrderedField K] : Scene K Unit Unit :=
  { random_emitter := fun r => (0, r)
    emitter := fun _ =>
      ({ emit := fun r =>
           ({ energy := ⟨1, 1, 1⟩
              point := Double3.Zero
              direction := Double3.Z
              pdf_direction := 1
              pdf_area := 1 }, r)
         type := Emitter.Type_.Area
         is_dirac := false }, 1)
    intersect := fun ray =>
      (true, 1,
        { point := ray.origin.add ray.direction
          from_direction := ray.direction
          material_id := 0
          rest := () })
    occluded := fun _ _ => false
    material := fun _ => mirrorMaterial K }

/-- The integrator over `mirrorScene` with the scenario camera and
`max_path_length = 255`, the largest value of an 8-bit counter. -/
def mirrorLT (K : Type) [LinearOrderedField K] : Integrator.LT K Unit Unit :=
  Integrator.LT.create (frontCamera K) (mirrorScene K)
    { image_width := 4, image_height := 2, max_path_length := 255, max_samples := 1 }
    (fun _ _ _ _ => 1) (1 / 1000) (fun _ => ())

/-- A material that scatters every particle diffusely along `+Y` with colour
`(1/2, 1/3, 1/5)`, cosine 1/2 and density 1/4; its evaluation returns a grey
colour and cosine 1 for every direction pair. -/
def wallMaterial (K : Type) [LinearOrderedField K] : BxDF.Polymorphic K Unit Unit :=
  { sample := fun _ _ r =>
      ({ colour := ⟨1 / 2, 1 / 3, 1 / 5⟩
         direction := Double3.Y
         event := BxDF.Event.Diffuse
         pdf_W := 1 / 4
         cos_theta := 1 / 2 }, r)
    evaluate := fun _ _ _ _ => { colour := ⟨1, 1, 1⟩, pdf_W := 1, cos_theta := 1 } }

/-- A scene in which every ray hits a diffuse wall at the point `(0, 2, 0)`, two
units ahead of the scenario camera, and no connection is occluded.  The single
emitter emits unit energy from `(0, 2, -1)` along `+Z`. -/
def wallScene (K : Type) [LinearOrderedField K] : Scene K Unit Unit :=
  { random_emitter := fun r => (0, r)
    emitter := fun _ =>
      ({ emit := fun r =>
           ({ energy := ⟨1, 1, 1⟩
              point := ⟨0, 2, -1⟩
              direction := Double3.Z
              pdf_direction := 1
              pdf_area := 1 }, r)
         type := Emitter.Type_.Area
         is_dirac := false }, 1)
    intersect := fun ray =>
      (true, 1,
        { point := ⟨0, 2, 0⟩
          from_direction := ray.direction
          material_id := 0
          rest := () })
    occluded := fun _ _ => false
    material := fun _ => wallMaterial K }

/-- The integrator over `wallScene` with the scenario camera, the given
`max_path_length`, and a shading correction that returns the `y` component of
its first argument (so it distinguishes a direction from its opposite). -/
def wallLT (K : Type) [LinearOrderedField K] (max_path_length : Nat) :
    Integrator.LT K Unit Unit :=
  Integrator.LT.create (frontCamera K) (wallScene K)
    { image_width := 4, image_height := 2, max_path_length := max_path_length,
      max_samples := 1 }
    (fun a _ _ _ => a.y) (1 / 1000) (fun _ => ())

/-- The interaction record of every hit in `wallScene` for a ray along `+Z`. -/
def wallHit (K : Type) [LinearOrderedField K] : Interaction K Unit :=
  { point := ⟨0, 2, 0⟩, from_direction := Double3.Z, material_id := 0, rest := () }

/-- The integrator of `wallLT` with `max_path_length = 1` whose single emitter is
the triangle `(0,0,0), (1,0,0), (0,1,0)` of radiance `(5, 5, 5)`, selected with
probability 1/2 and sampled with `constantSampling`. -/
def triangleLT (K : Type) [LinearOrderedField K] (sqrt : K → K) (pi : K) :
    Integrator.LT K Unit Unit :=
  { wallLT K 1 with
    scene := { wallScene K with
      emitter := fun _ =>
        ((Emitter.Triangle.create sqrt (constantSampling K) ⟨0, 0, 0⟩ ⟨1, 0, 0⟩ ⟨0, 1, 0⟩
          ⟨5, 5, 5⟩).toPolymorphic pi (constantSampling K), 1 / 2) } }

/-! # Theorems -/

/-! ## Square roots and vector algebra -/

section VectorLemmas

variable {K : Type} [LinearOrderedField K]

theorem isSqrt_real : IsSqrt Real.sqrt := fun a ha =>
  ⟨Real.sqrt_nonneg a, Real.mul_self_sqrt ha⟩

theorem IsSqrt.eq_of_mul_self {sqrt : K → K} (hs : IsSqrt sqrt) {a m : K} (hm : 0 ≤ m)
    (h : m * m = a) : sqrt a = m := by
  have ha : 0 ≤ a := by rw [← h]; exact mul_self_nonneg m
  obtain ⟨h0, h1⟩ := hs a ha
  have h2 : sqrt a * sqrt a = m * m := by rw [h1, h]
  rcases mul_self_eq_mul_self_iff.mp h2 with h3 | h3
  · exact h3
  · have : sqrt a = 0 := by linarith
    have : m = 0 := by linarith
    linarith

theorem IsSqrt.pos {sqrt : K → K} (hs : IsSqrt sqrt) {a : K} (ha : 0 < a) : 0 < sqrt a := by
  obtain ⟨h0, h1⟩ := hs a ha.le
  rcases h0.lt_or_eq with h | h
  · exact h
  · rw [← h] at h1; simp at h1; linarith

theorem IsSqrt.one {sqrt : K → K} (hs : IsSqrt sqrt) : sqrt 1 = 1 :=
  hs.eq_of_mul_self zero_le_one (by norm_num)

namespace Double3

theorem dot_self_nonneg (a : Double3 K) : 0 ≤ a.dot a := by
  unfold dot
  have h1 := mul_self_nonneg a.x
  have h2 := mul_self_nonneg a.y
  have h3 := mul_self_nonneg a.z
  linarith

theorem dot_self_pos {a : Double3 K} (h : a ≠ Zero) : 0 < a.dot a := by
  rcases (dot_self_nonneg a).lt_or_eq with h1 | h1
  · exact h1
  · exfalso
    apply h
    unfold dot at h1
    have hx := mul_self_nonneg a.x
    have hy := mul_self_nonneg a.y
    have hz := mul_self_nonneg a.z
    have ex : a.x = 0 := mul_self_eq_zero.mp (by linarith)
    have ey : a.y = 0 := mul_self_eq_zero.mp (by linarith)
    have ez : a.z = 0 := mul_self_eq_zero.mp (by linarith)
    cases a
    simp only at ex ey ez
    simp only [Zero, ex, ey, ez]

theorem dot_divide_left (a b : Double3 K) (s : K) : (a.divide s).dot b = a.dot b / s := by
  simp only [dot, divide]; ring

theorem dot_divide_right (a b : Double3 K) (s : K) : a.dot (b.divide s) = a.dot b / s := by
  simp only [dot, divide]; ring

theorem magnitude_pos {sqrt : K → K} (hs : IsSqrt sqrt) {a : Double3 K} (h : 0 < a.dot a) :
    0 < a.magnitude sqrt := hs.pos h

theorem magnitude_mul_self {sqrt : K → K} (hs : IsSqrt sqrt) (a : Double3 K) :
    a.magnitude sqrt * a.magnitude sqrt = a.dot a := (hs _ (dot_self_nonneg a)).2

/-- A normalised vector of non-zero length has unit length. -/
theorem normalise_dot_self {sqrt : K → K} (hs : IsSqrt sqrt) {a : Double3 K}
    (h : 0 < a.dot a) : (a.normalise sqrt).dot (a.normalise sqrt) = 1 := by
  have hm := magnitude_pos hs h
  have h2 := magnitude_mul_self hs a
  unfold normalise
  rw [dot_divide_left, dot_divide_right, div_div, h2]
  exact div_self h.ne'

theorem magnitude_of_unit {sqrt : K → K} (hs : IsSqrt sqrt) {a : Double3 K}
    (h : a.dot a = 1) : a.magnitude sqrt = 1 := by
  unfold magnitude; rw [h]; exact hs.one

theorem normalise_of_unit {sqrt : K → K} (hs : IsSqrt sqrt) {a : Double3 K}
    (h : a.dot a = 1) : a.normalise sqrt = a := by
  unfold normalise; rw [magnitude_of_unit hs h]; cases a; simp [divide]

/-- Lagrange identity for the cross product. -/
theorem cross_dot_self (a b : Double3 K) :
    (a.cross b).dot (a.cross b) = a.dot a * b.dot b - a.dot b * a.dot b := by
  simp only [dot, cross]; ring

theorem cross_dot_left (a b : Double3 K) : (a.cross b).dot a = 0 := by
  simp only [dot, cross]; ring

theorem cross_dot_right (a b : Double3 K) : (a.cross b).dot b = 0 := by
  simp only [dot, cross]; ring

theorem dot_comm (a b : Double3 K) : a.dot b = b.dot a := by
  simp only [dot]; ring

theorem dot_neg_left (a b : Double3 K) : (a.neg).dot b = -(a.dot b) := by
  simp only [dot, neg]; ring

theorem dot_neg_right (a b : Double3 K) : a.dot (b.neg) = -(a.dot b) := by
  simp only [dot, neg]; ring

/-- Normalising is invariant under scaling by a positive factor. -/
theorem normalise_scale {sqrt : K → K} (hs : IsSqrt sqrt) (a : Double3 K) {t : K}
    (ht : 0 < t) : (a.scale t).normalise sqrt = a.normalise sqrt := by
  have hm : (a.scale t).magnitude sqrt = a.magnitude sqrt * t := by
    unfold magnitude
    apply hs.eq_of_mul_self
    · exact mul_nonneg (hs _ (dot_self_nonneg a)).1 ht.le
    · have := (hs _ (dot_self_nonneg a)).2
      calc sqrt (a.dot a) * t * (sqrt (a.dot a) * t)
          = (sqrt (a.dot a) * sqrt (a.dot a)) * (t * t) := by ring
        _ = a.dot a * (t * t) := by rw [this]
        _ = (a.scale t).dot (a.scale t) := by simp only [dot, scale]; ring
  unfold normalise
  rw [hm]
  simp only [divide, scale]
  have ht' := ht.ne'
  congr 1 <;> exact mul_div_mul_right _ _ ht'

end Double3

end VectorLemmas

/-! ## Camera construction -/

namespace Camera

section Construction

variable {K : Type} [LinearOrderedField K]

/-- Construction succeeds exactly when the look-at distance is not below the
threshold. -/
theorem create_ok_of_not_lt (sqrt : K → K) (position look_at : Double3 K) (focal_length : K)
    (config : Config) (h : ¬ (look_at.sub position).magnitude sqrt < 1 / 1000) :
    ∃ cam, create sqrt position look_at focal_length config = Except.ok cam := by
  unfold create
  simp only [h, if_false]
  exact ⟨_, rfl⟩

/-- The members of a successfully constructed camera. -/
theorem create_ok_fields {sqrt : K → K} {position look_at : Double3 K} {focal_length : K}
    {config : Config} {cam : Camera K}
    (h : create sqrt position look_at focal_length config = Except.ok cam) :
    ¬ (look_at.sub position).magnitude sqrt < 1 / 1000 ∧
    cam.position = position ∧
    cam.forward = (look_at.sub position).normalise sqrt ∧
    cam.right = (cam.forward.cross (world_up cam.forward)).normalise sqrt ∧
    cam.up = ((cam.right.cross cam.forward).normalise sqrt).neg ∧
    cam.scalar = 36 / focal_length ∧
    cam.aspect_ratio = (config.image_width : K) / (config.image_height : K) ∧
    cam.sensor_area = cam.scalar * cam.scalar / cam.aspect_ratio ∧
    cam.image_width = config.image_width % 65536 ∧
    cam.image_height = config.image_height % 65536 ∧
    cam.dx = 1 / ((((config.image_width % 65536 : Nat) : Int) - 1 : Int) : K) ∧
    cam.dy = 1 / ((((config.image_height % 65536 : Nat) : Int) - 1 : Int) : K) := by
  unfold create at h
  by_cases hm : (look_at.sub position).magnitude sqrt < 1 / 1000
  · simp only [hm, if_true] at h
    cases h
  · simp only [hm, if_false] at h
    injection h with h
    subst h
    exact ⟨hm, rfl, rfl, rfl, rfl, rfl, rfl, rfl, rfl, rfl, rfl, rfl⟩

/-- The cross product that defines `right` has non-zero length when `forward` is
a unit vector: the world-up axis is never collinear with `forward`. -/
theorem cross_world_up_pos {f : Double3 K} (hf : f.dot f = 1) :
    0 < (f.cross (world_up f)).dot (f.cross (world_up f)) := by
  rw [Double3.cross_dot_self, hf]
  unfold world_up
  by_cases hz : |f.dot Double3.Z| < 99 / 100
  · simp only [hz, if_true]
    have h1 : f.dot Double3.Z = f.z := by simp [Double3.dot, Double3.Z]
    have h2 : (Double3.Z : Double3 K).dot Double3.Z = 1 := by simp [Double3.dot, Double3.Z]
    rw [h1] at hz ⊢
    rw [h2]
    have := abs_lt.mp hz
    nlinarith
  · simp only [hz, if_false]
    have h1 : f.dot Double3.Z = f.z := by simp [Double3.dot, Double3.Z]
    have h2 : (Double3.X : Double3 K).dot Double3.X = 1 := by simp [Double3.dot, Double3.X]
    have h3 : f.dot Double3.X = f.x := by simp [Double3.dot, Double3.X]
    rw [h1] at hz
    rw [h2, h3]
    have hz' : 99 / 100 ≤ |f.z| := not_lt.mp hz
    have hsq : (99 / 100 : K) * (99 / 100) ≤ f.z * f.z := by
      rw [← abs_mul_abs_self f.z]
      exact mul_self_le_mul_self (by norm_num) hz'
    have hy := mul_self_nonneg f.y
    have hx : f.x * f.x + f.y * f.y + f.z * f.z = 1 := hf
    nlinarith

/-- The view basis of a constructed camera is orthonormal (dot-product form). -/
theorem create_orthonormal {sqrt : K → K} (hs : IsSqrt sqrt) {position look_at : Double3 K}
    {focal_length : K} {config : Config} {cam : Camera K}
    (h : create sqrt position look_at focal_length config = Except.ok cam) :
    cam.forward.dot cam.forward = 1 ∧ cam.right.dot cam.right = 1 ∧ cam.up.dot cam.up = 1 ∧
    cam.forward.dot cam.right = 0 ∧ cam.forward.dot cam.up = 0 ∧ cam.right.dot cam.up = 0 := by
  obtain ⟨hm, -, hf, hr, hu, -⟩ := create_ok_fields h
  have hdpos : 0 < (look_at.sub position).dot (look_at.sub position) := by
    rcases (Double3.dot_self_nonneg (look_at.sub position)).lt_or_eq with h1 | h1
    · exact h1
    · exfalso
      apply hm
      have : (look_at.sub position).magnitude sqrt = 0 := by
        unfold Double3.magnitude
        rw [← h1]
        exact hs.eq_of_mul_self le_rfl (by ring)
      rw [this]; norm_num
  have hff : cam.forward.dot cam.forward = 1 := by
    rw [hf]; exact Double3.normalise_dot_self hs hdpos
  have hcpos := cross_world_up_pos hff
  have hrr : cam.right.dot cam.right = 1 := by
    rw [hr]; exact Double3.normalise_dot_self hs hcpos
  have hfr : cam.forward.dot cam.right = 0 := by
    rw [hr, Double3.normalise, Double3.dot_divide_right, Double3.dot_comm,
      Double3.cross_dot_left, zero_div]
  have hrf : cam.right.dot cam.forward = 0 := by rw [Double3.dot_comm]; exact hfr
  have hc1 : (cam.right.cross cam.forward).dot (cam.right.cross cam.forward) = 1 := by
    rw [Double3.cross_dot_self, hrr, hff, hrf]; norm_num
  have hn : (cam.right.cross cam.forward).normalise sqrt = cam.right.cross cam.forward :=
    Double3.normalise_of_unit hs hc1
  have hu' : cam.up = (cam.right.cross cam.forward).neg := by rw [hu, hn]
  refine ⟨hff, hrr, ?_, hfr, ?_, ?_⟩
  · rw [hu', Double3.dot_neg_left, Double3.dot_neg_right, hc1]; norm_num
  · rw [hu', Double3.dot_neg_right, Double3.dot_comm, Double3.cross_dot_right]; norm_num
  · rw [hu', Double3.dot_neg_right, Double3.dot_comm, Double3.cross_dot_left]; norm_num

end Construction

end Camera

/-! ## Camera projection and density -/

namespace Camera

section Projection

variable {K : Type} [LinearOrderedField K]

/-- The result of `sensor` in terms of the cosine and the normalised coordinates. -/
theorem sensor_eq (sqrt : K → K) (cam : Camera K) (world_point lens_point : Double3 K) :
    sensor sqrt cam world_point lens_point =
      if cos_theta sqrt cam world_point ≤ 0 then (0, 0, false)
      else if |sensor_x sqrt cam world_point| > 1 / 2 ∨ |sensor_y sqrt cam world_point| > 1 / 2
        then (0, 0, false)
      else ((sensor_x sqrt cam world_point + 1 / 2) * (cam.image_width : K),
        (sensor_y sqrt cam world_point + 1 / 2) * (cam.image_height : K), true) := rfl

/-- The result of `pdf` in terms of the cosine and the normalised coordinates. -/
theorem pdf_eq (sqrt : K → K) (cam : Camera K) (world_point lens_point : Double3 K) :
    pdf sqrt cam world_point lens_point =
      if cos_theta sqrt cam world_point ≤ 0 then 0
      else if |sensor_x sqrt cam world_point| > 1 / 2 ∨ |sensor_y sqrt cam world_point| > 1 / 2
        then 0
      else 1 / (cam.sensor_area / (cos_theta sqrt cam world_point *
        cos_theta sqrt cam world_point * cos_theta sqrt cam world_point)) := rfl

/-- The acceptance test of `sensor`. -/
theorem sensor_valid_iff (sqrt : K → K) (cam : Camera K) (world_point lens_point : Double3 K) :
    (sensor sqrt cam world_point lens_point).2.2 = true ↔
      0 < cos_theta sqrt cam world_point ∧ |sensor_x sqrt cam world_point| ≤ 1 / 2 ∧
        |sensor_y sqrt cam world_point| ≤ 1 / 2 := by
  rw [sensor_eq]
  by_cases hc : cos_theta sqrt cam world_point ≤ 0
  · simp only [hc, if_true]
    constructor
    · intro h; cases h
    · intro h; exact absurd hc (not_le.mpr h.1)
  · simp only [hc, if_false]
    by_cases hx : |sensor_x sqrt cam world_point| > 1 / 2 ∨ |sensor_y sqrt cam world_point| > 1 / 2
    · simp only [hx, if_true]
      constructor
      · intro h; cases h
      · intro h
        rcases hx with hx | hx
        · exact absurd h.2.1 (not_le.mpr hx)
        · exact absurd h.2.2 (not_le.mpr hx)
    · simp only [hx, if_false]
      rw [not_or] at hx
      exact ⟨fun _ => ⟨not_le.mp hc, not_lt.mp hx.1, not_lt.mp hx.2⟩, fun _ => trivial⟩

/-- The value of `pdf` on accepted points. -/
theorem pdf_of_valid (sqrt : K → K) (cam : Camera K) (world_point lens_point : Double3 K)
    (h : (sensor sqrt cam world_point lens_point).2.2 = true) :
    pdf sqrt cam world_point lens_point =
      1 / (cam.sensor_area / (cos_theta sqrt cam world_point *
        cos_theta sqrt cam world_point * cos_theta sqrt cam world_point)) := by
  obtain ⟨hc, hx, hy⟩ := (sensor_valid_iff sqrt cam world_point lens_point).mp h
  rw [pdf_eq]
  have h1 : ¬ cos_theta sqrt cam world_point ≤ 0 := not_le.mpr hc
  have h2 : ¬ (|sensor_x sqrt cam world_point| > 1 / 2 ∨
      |sensor_y sqrt cam world_point| > 1 / 2) := by
    rw [not_or]; exact ⟨not_lt.mpr hx, not_lt.mpr hy⟩
  simp only [h1, h2, if_false]

/-- The value of `pdf` on rejected points. -/
theorem pdf_of_not_valid (sqrt : K → K) (cam : Camera K) (world_point lens_point : Double3 K)
    (h : (sensor sqrt cam world_point lens_point).2.2 ≠ true) :
    pdf sqrt cam world_point lens_point = 0 := by
  rw [Ne, sensor_valid_iff] at h
  rw [pdf_eq]
  by_cases hc : cos_theta sqrt cam world_point ≤ 0
  · simp only [hc, if_true]
  · simp only [hc, if_false]
    by_cases hx : |sensor_x sqrt cam world_point| > 1 / 2 ∨ |sensor_y sqrt cam world_point| > 1 / 2
    · simp only [hx, if_true]
    · exfalso
      rw [not_or] at hx
      exact h ⟨not_le.mp hc, not_lt.mp hx.1, not_lt.mp hx.2⟩

/-- The camera sees a world point only through the normalised direction from its
position. -/
theorem pdf_congr (sqrt : K → K) (cam : Camera K) (p q lp lq : Double3 K)
    (h : (p.sub cam.position).normalise sqrt = (q.sub cam.position).normalise sqrt) :
    pdf sqrt cam p lp = pdf sqrt cam q lq := by
  unfold pdf
  simp only [h]

theorem add_scale_sub (p v : Double3 K) (t : K) : (p.add (v.scale t)).sub p = v.scale t := by
  cases p; cases v
  simp [Double3.add, Double3.sub, Double3.scale]

theorem add_sub_self (p v : Double3 K) : (p.add v).sub p = v := by
  cases p; cases v
  simp [Double3.add, Double3.sub]

/-- The sensor area of a constructed camera is positive when the focal length and
the image dimensions are. -/
theorem create_sensor_area_pos {sqrt : K → K} {position look_at : Double3 K}
    {focal_length : K} {config : Config} {cam : Camera K}
    (h : create sqrt position look_at focal_length config = Except.ok cam)
    (hf : 0 < focal_length) (hw : 0 < config.image_width) (hh : 0 < config.image_height) :
    0 < cam.scalar ∧ 0 < cam.aspect_ratio ∧ 0 < cam.sensor_area := by
  obtain ⟨-, -, -, -, -, hsc, har, hsa, -⟩ := create_ok_fields h
  have h1 : 0 < cam.scalar := by rw [hsc]; positivity
  have hw' : (0 : K) < (config.image_width : K) := by exact_mod_cast hw
  have hh' : (0 : K) < (config.image_height : K) := by exact_mod_cast hh
  have h2 : 0 < cam.aspect_ratio := by rw [har]; positivity
  refine ⟨h1, h2, ?_⟩
  rw [hsa]; positivity

end Projection

end Camera

/-! ## The scenario camera -/

section FrontCamera

theorem magnitude_Y_real : (Double3.Y : Double3 ℝ).magnitude Real.sqrt = 1 :=
  Double3.magnitude_of_unit isSqrt_real (by simp [Double3.dot, Double3.Y])

theorem sub_zero_vec {K : Type} [LinearOrderedField K] (a : Double3 K) :
    a.sub Double3.Zero = a := by
  cases a; simp [Double3.sub, Double3.Zero]

/-- The constructor applied to the scenario inputs yields `frontCamera`. -/
theorem create_frontCamera :
    Camera.create Real.sqrt Double3.Zero Double3.Y 50 frontConfig
      = Except.ok (frontCamera ℝ) := by
  have hm : ¬ (Double3.Y : Double3 ℝ).magnitude Real.sqrt < 1 / 1000 := by
    rw [magnitude_Y_real]; norm_num
  have hn : (Double3.Y : Double3 ℝ).normalise Real.sqrt = Double3.Y :=
    Double3.normalise_of_unit isSqrt_real (by simp [Double3.dot, Double3.Y])
  have hw : Camera.world_up (Double3.Y : Double3 ℝ) = Double3.Z := by
    unfold Camera.world_up
    have : |(Double3.Y : Double3 ℝ).dot Double3.Z| < 99 / 100 := by
      simp [Double3.dot, Double3.Y, Double3.Z]
    simp only [this, if_true]
  have hc : (Double3.Y : Double3 ℝ).cross Double3.Z = Double3.X := by
    simp [Double3.cross, Double3.X, Double3.Y, Double3.Z]
  have hx : (Double3.X : Double3 ℝ).normalise Real.sqrt = Double3.X :=
    Double3.normalise_of_unit isSqrt_real (by simp [Double3.dot, Double3.X])
  have hc2 : (Double3.X : Double3 ℝ).cross Double3.Y = Double3.Z := by
    simp [Double3.cross, Double3.X, Double3.Y, Double3.Z]
  have hz : (Double3.Z : Double3 ℝ).normalise Real.sqrt = Double3.Z :=
    Double3.normalise_of_unit isSqrt_real (by simp [Double3.dot, Double3.Z])
  unfold Camera.create
  simp only [sub_zero_vec, hm, if_false, hn, hw, hc, hx, hc2, hz]
  simp only [frontCamera, frontConfig, Camera.sensor_width, Double3.neg, Double3.Z]
  norm_num

end FrontCamera

/-! ## Claims about the camera -/

section CameraClaims

variable {K : Type} [LinearOrderedField K]

/-- C3. Camera rejection: if the cosine between the normalised direction
`world_point - position` and `forward` is at most 0, or one of the normalised
sensor coordinates has absolute value above 1/2, then `sensor` reports
`valid = false` and `pdf` returns 0. -/
theorem camera_rejection (sqrt : K → K) (cam : Camera K) (world_point lens_point : Double3 K)
    (h : cam.cos_theta sqrt world_point ≤ 0 ∨ |cam.sensor_x sqrt world_point| > 1 / 2 ∨
      |cam.sensor_y sqrt world_point| > 1 / 2) :
    (cam.sensor sqrt world_point lens_point).2.2 = false ∧
      cam.pdf sqrt world_point lens_point = 0 := by
  have hv : (cam.sensor sqrt world_point lens_point).2.2 ≠ true := by
    rw [Ne, Camera.sensor_valid_iff]
    rintro ⟨hc, hx, hy⟩
    rcases h with h | h | h
    · exact absurd h (not_le.mpr hc)
    · exact absurd hx (not_le.mpr h)
    · exact absurd hy (not_le.mpr h)
  exact ⟨by simpa using hv, Camera.pdf_of_not_valid sqrt cam world_point lens_point hv⟩

/-- C3, at the scenario camera and the point one unit behind it. -/
theorem camera_rejection_witness :
    ((frontCamera ℝ).cos_theta Real.sqrt ⟨0, -1, 0⟩ ≤ 0 ∨
      |(frontCamera ℝ).sensor_x Real.sqrt ⟨0, -1, 0⟩| > 1 / 2 ∨
      |(frontCamera ℝ).sensor_y Real.sqrt ⟨0, -1, 0⟩| > 1 / 2) ∧
    ((frontCamera ℝ).sensor Real.sqrt ⟨0, -1, 0⟩ Double3.Zero).2.2 = false ∧
      (frontCamera ℝ).pdf Real.sqrt ⟨0, -1, 0⟩ Double3.Zero = 0 := by
  have h : (frontCamera ℝ).cos_theta Real.sqrt ⟨0, -1, 0⟩ ≤ 0 := by
    simp [Camera.cos_theta, frontCamera, Double3.normalise, Double3.magnitude, Double3.dot,
      Double3.sub, Double3.divide, Double3.Zero, Double3.Y]
  exact ⟨Or.inl h, camera_rejection Real.sqrt (frontCamera ℝ) ⟨0, -1, 0⟩ Double3.Zero (Or.inl h)⟩

/-- C4. For a camera built with positive focal length and positive image width and
height, `pdf` is strictly positive exactly when `sensor` reports `valid = true`,
and is 0 otherwise. -/
theorem pdf_pos_iff_sensor_valid (sqrt : K → K) (position look_at : Double3 K)
    (focal_length : K) (config : Config) (cam : Camera K)
    (hc : Camera.create sqrt position look_at focal_length config = Except.ok cam)
    (hf : 0 < focal_length) (hw : 0 < config.image_width) (hh : 0 < config.image_height)
    (world_point lens_point : Double3 K) :
    (0 < cam.pdf sqrt world_point lens_point ↔
      (cam.sensor sqrt world_point lens_point).2.2 = true) ∧
    ((cam.sensor sqrt world_point lens_point).2.2 = false →
      cam.pdf sqrt world_point lens_point = 0) := by
  obtain ⟨-, -, ha⟩ := Camera.create_sensor_area_pos hc hf hw hh
  constructor
  · constructor
    · intro hp
      by_contra hv
      rw [Camera.pdf_of_not_valid sqrt cam world_point lens_point hv] at hp
      exact lt_irrefl _ hp
    · intro hv
      rw [Camera.pdf_of_valid sqrt cam world_point lens_point hv]
      obtain ⟨hcos, -, -⟩ := (Camera.sensor_valid_iff sqrt cam world_point lens_point).mp hv
      positivity
  · intro hv
    exact Camera.pdf_of_not_valid sqrt cam world_point lens_point (by simp [hv])

/-- C4, at the scenario camera and the point one unit ahead of it. -/
theorem pdf_pos_iff_sensor_valid_witness :
    Camera.create Real.sqrt Double3.Zero Double3.Y 50 frontConfig = Except.ok (frontCamera ℝ) ∧
    (0 : ℝ) < 50 ∧ 0 < frontConfig.image_width ∧ 0 < frontConfig.image_height ∧
    ((0 < (frontCamera ℝ).pdf Real.sqrt Double3.Y Double3.Zero ↔
      ((frontCamera ℝ).sensor Real.sqrt Double3.Y Double3.Zero).2.2 = true) ∧
    (((frontCamera ℝ).sensor Real.sqrt Double3.Y Double3.Zero).2.2 = false →
      (frontCamera ℝ).pdf Real.sqrt Double3.Y Double3.Zero = 0)) :=
  ⟨create_frontCamera, by norm_num, by decide, by decide,
    pdf_pos_iff_sensor_valid Real.sqrt Double3.Zero Double3.Y 50 frontConfig (frontCamera ℝ)
      create_frontCamera (by norm_num) (by decide) (by decide) Double3.Y Double3.Zero⟩

/-- C6. The camera density depends on the direction only: scaling the offset from
the camera position by any factor `t > 0` leaves `pdf` unchanged. -/
theorem pdf_distance_invariant (sqrt : K → K) (hs : IsSqrt sqrt) (cam : Camera K)
    (v lens_point : Double3 K) (t : K) (hv : v ≠ Double3.Zero) (ht : 0 < t) :
    cam.pdf sqrt (cam.position.add (v.scale t)) lens_point =
      cam.pdf sqrt (cam.position.add v) lens_point := by
  have _ := hv
  apply Camera.pdf_congr
  rw [Camera.add_scale_sub, Camera.add_sub_self, Double3.normalise_scale hs v ht]

/-- C6, at the scenario camera: the density at distance 2 along `+Y` equals the
density at distance 1. -/
theorem pdf_distance_invariant_witness :
    IsSqrt Real.sqrt ∧ (Double3.Y : Double3 ℝ) ≠ Double3.Zero ∧ (0 : ℝ) < 2 ∧
    (frontCamera ℝ).pdf Real.sqrt ((frontCamera ℝ).position.add (Double3.Y.scale 2)) Double3.Zero =
      (frontCamera ℝ).pdf Real.sqrt ((frontCamera ℝ).position.add Double3.Y) Double3.Zero := by
  have hY : (Double3.Y : Double3 ℝ) ≠ Double3.Zero := by
    intro h
    have := congrArg Double3.y h
    simp [Double3.Y, Double3.Zero] at this
  exact ⟨isSqrt_real, hY, by norm_num,
    pdf_distance_invariant Real.sqrt isSqrt_real (frontCamera ℝ) Double3.Y Double3.Zero 2 hY
      (by norm_num)⟩

/-- C7. Construction fails if and only if the distance between `look_at` and
`position` is below 0.001; in every other case, whatever the focal length and the
image size, it succeeds and `forward` is the normalised vector
`look_at - position`. -/
theorem camera_create_fails_iff (sqrt : K → K) (position look_at : Double3 K)
    (focal_length : K) (config : Config) :
    ((∃ msg, Camera.create sqrt position look_at focal_length config = Except.error msg) ↔
      (look_at.sub position).magnitude sqrt < 1 / 1000) ∧
    ((look_at.sub position).magnitude sqrt < 1 / 1000 ∨
      ∃ cam, Camera.create sqrt position look_at focal_length config = Except.ok cam ∧
        cam.forward = (look_at.sub position).normalise sqrt) := by
  by_cases hm : (look_at.sub position).magnitude sqrt < 1 / 1000
  · refine ⟨⟨fun _ => hm, fun _ => ?_⟩, Or.inl hm⟩
    unfold Camera.create
    simp only [hm, if_true]
    exact ⟨_, rfl⟩
  · obtain ⟨cam, hcam⟩ := Camera.create_ok_of_not_lt sqrt position look_at focal_length config hm
    refine ⟨⟨fun ⟨msg, h⟩ => ?_, fun h => absurd h hm⟩, Or.inr ⟨cam, hcam, ?_⟩⟩
    · rw [hcam] at h; cases h
    · exact (Camera.create_ok_fields hcam).2.2.1

/-- C8. For `position` and `look_at` at distance at least 0.001 the construction
succeeds and the view basis is orthonormal: `forward`, `right` and `up` have unit
length and are pairwise perpendicular; the cross product `forward x world_up`
that defines `right` is not the zero vector, for either choice of `world_up`. -/
theorem camera_basis_orthonormal (sqrt : K → K) (hs : IsSqrt sqrt)
    (position look_at : Double3 K) (focal_length : K) (config : Config)
    (hd : 1 / 1000 ≤ (look_at.sub position).magnitude sqrt) :
    ∃ cam, Camera.create sqrt position look_at focal_length config = Except.ok cam ∧
      cam.forward.magnitude sqrt = 1 ∧ cam.right.magnitude sqrt = 1 ∧
      cam.up.magnitude sqrt = 1 ∧
      cam.forward.dot cam.right = 0 ∧ cam.forward.dot cam.up = 0 ∧ cam.right.dot cam.up = 0 ∧
      cam.right = (cam.forward.cross (Camera.world_up cam.forward)).normalise sqrt ∧
      cam.forward.cross (Camera.world_up cam.forward) ≠ Double3.Zero ∧
      (|cam.forward.z| < 99 / 100 → Camera.world_up cam.forward = Double3.Z ∧
        cam.forward.cross Double3.Z ≠ Double3.Zero) ∧
      (99 / 100 ≤ |cam.forward.z| → Camera.world_up cam.forward = Double3.X ∧
        cam.forward.cross Double3.X ≠ Double3.Zero) := by
  obtain ⟨cam, hcam⟩ :=
    Camera.create_ok_of_not_lt sqrt position look_at focal_length config (not_lt.mpr hd)
  obtain ⟨hff, hrr, huu, hfr, hfu, hru⟩ := Camera.create_orthonormal hs hcam
  have hne : cam.forward.cross (Camera.world_up cam.forward) ≠ Double3.Zero := by
    intro h0
    have := Camera.cross_world_up_pos hff
    rw [h0] at this
    simp [Double3.dot, Double3.Zero] at this
  have hz : cam.forward.dot Double3.Z = cam.forward.z := by simp [Double3.dot, Double3.Z]
  refine ⟨cam, hcam, Double3.magnitude_of_unit hs hff, Double3.magnitude_of_unit hs hrr,
    Double3.magnitude_of_unit hs huu, hfr, hfu, hru, (Camera.create_ok_fields hcam).2.2.2.1,
    hne, ?_, ?_⟩
  · intro h
    have hw : Camera.world_up cam.forward = Double3.Z := by
      unfold Camera.world_up; rw [hz]; simp only [h, if_true]
    exact ⟨hw, by rw [← hw]; exact hne⟩
  · intro h
    have hw : Camera.world_up cam.forward = Double3.X := by
      unfold Camera.world_up; rw [hz]; simp only [not_lt.mpr h, if_false]
    exact ⟨hw, by rw [← hw]; exact hne⟩

/-- C8, at the scenario inputs: camera at the origin looking at `(0, 1, 0)`. -/
theorem camera_basis_orthonormal_witness :
    IsSqrt Real.sqrt ∧
    (1 / 1000 : ℝ) ≤ ((Double3.Y : Double3 ℝ).sub Double3.Zero).magnitude Real.sqrt ∧
    ∃ cam, Camera.create Real.sqrt Double3.Zero Double3.Y 50 frontConfig = Except.ok cam ∧
      cam.forward.magnitude Real.sqrt = 1 ∧ cam.right.magnitude Real.sqrt = 1 ∧
      cam.up.magnitude Real.sqrt = 1 ∧
      cam.forward.dot cam.right = 0 ∧ cam.forward.dot cam.up = 0 ∧ cam.right.dot cam.up = 0 ∧
      cam.right = (cam.forward.cross (Camera.world_up cam.forward)).normalise Real.sqrt ∧
      cam.forward.cross (Camera.world_up cam.forward) ≠ Double3.Zero ∧
      (|cam.forward.z| < 99 / 100 → Camera.world_up cam.forward = Double3.Z ∧
        cam.forward.cross Double3.Z ≠ Double3.Zero) ∧
      (99 / 100 ≤ |cam.forward.z| → Camera.world_up cam.forward = Double3.X ∧
        cam.forward.cross Double3.X ≠ Double3.Zero) := by
  have hd : (1 / 1000 : ℝ) ≤ ((Double3.Y : Double3 ℝ).sub Double3.Zero).magnitude Real.sqrt := by
    rw [sub_zero_vec, magnitude_Y_real]; norm_num
  exact ⟨isSqrt_real, hd,
    camera_basis_orthonormal Real.sqrt isSqrt_real Double3.Zero Double3.Y 50 frontConfig hd⟩

end CameraClaims

/-! ## Round trip through `generate_ray` and `sensor` -/

section RoundTrip

variable {K : Type} [LinearOrderedField K]

theorem normalise_divide {sqrt : K → K} (hs : IsSqrt sqrt) (a : Double3 K) {m : K}
    (hm : 0 < m) : (a.divide m).normalise sqrt = a.normalise sqrt := by
  have h : a.divide m = a.scale (1 / m) := by
    simp only [Double3.divide, Double3.scale]
    congr 1 <;> ring
  rw [h, Double3.normalise_scale hs a (by positivity)]

theorem dot_add_left (a b c : Double3 K) : (a.add b).dot c = a.dot c + b.dot c := by
  simp only [Double3.dot, Double3.add]; ring

theorem dot_add_right (a b c : Double3 K) : a.dot (b.add c) = a.dot b + a.dot c := by
  simp only [Double3.dot, Double3.add]; ring

theorem dot_scale_left (a b : Double3 K) (s : K) : (a.scale s).dot b = a.dot b * s := by
  simp only [Double3.dot, Double3.scale]; ring

theorem dot_scale_right (a b : Double3 K) (s : K) : a.dot (b.scale s) = a.dot b * s := by
  simp only [Double3.dot, Double3.scale]; ring

theorem pixel_direction_dots (cam : Camera K) (ξ η : K)
    (hff : cam.forward.dot cam.forward = 1) (hrr : cam.right.dot cam.right = 1)
    (huu : cam.up.dot cam.up = 1) (hfr : cam.forward.dot cam.right = 0)
    (hfu : cam.forward.dot cam.up = 0) (hru : cam.right.dot cam.up = 0) :
    (pixel_direction cam ξ η).dot cam.forward = 1 ∧
    (pixel_direction cam ξ η).dot cam.right = cam.scalar * ξ ∧
    (pixel_direction cam ξ η).dot cam.up = cam.scalar / cam.aspect_ratio * η ∧
    (pixel_direction cam ξ η).dot (pixel_direction cam ξ η) =
      1 + cam.scalar * ξ * (cam.scalar * ξ) +
        cam.scalar / cam.aspect_ratio * η * (cam.scalar / cam.aspect_ratio * η) := by
  have hrf : cam.right.dot cam.forward = 0 := by rw [Double3.dot_comm]; exact hfr
  have huf : cam.up.dot cam.forward = 0 := by rw [Double3.dot_comm]; exact hfu
  have hur : cam.up.dot cam.right = 0 := by rw [Double3.dot_comm]; exact hru
  refine ⟨?_, ?_, ?_, ?_⟩ <;>
  · simp only [pixel_direction, dot_add_left, dot_add_right, dot_scale_left, dot_scale_right,
      Double3.dot_divide_left, Double3.dot_divide_right, hff, hrr, huu, hfr, hfu, hru, hrf, huf,
      hur]
    ring

/-- The projection of a point at distance `t > 0` along the normalised direction
through sensor offsets `(ξ, η)`: the cosine is positive and `sensor` recomputes
exactly `(ξ, η)`. -/
theorem project_pixel_direction {sqrt : K → K} (hs : IsSqrt sqrt) (cam : Camera K) (ξ η t : K)
    (hff : cam.forward.dot cam.forward = 1) (hrr : cam.right.dot cam.right = 1)
    (huu : cam.up.dot cam.up = 1) (hfr : cam.forward.dot cam.right = 0)
    (hfu : cam.forward.dot cam.up = 0) (hru : cam.right.dot cam.up = 0)
    (hsc : 0 < cam.scalar) (har : 0 < cam.aspect_ratio) (ht : 0 < t) :
    0 < cam.cos_theta sqrt
      (cam.position.add (((pixel_direction cam ξ η).normalise sqrt).scale t)) ∧
    cam.sensor_x sqrt
      (cam.position.add (((pixel_direction cam ξ η).normalise sqrt).scale t)) = ξ ∧
    cam.sensor_y sqrt
      (cam.position.add (((pixel_direction cam ξ η).normalise sqrt).scale t)) = η := by
  obtain ⟨h1, h2, h3, h4⟩ := pixel_direction_dots cam ξ η hff hrr huu hfr hfu hru
  have hpos : 0 < (pixel_direction cam ξ η).dot (pixel_direction cam ξ η) := by
    rw [h4]
    have a1 := mul_self_nonneg (cam.scalar * ξ)
    have a2 := mul_self_nonneg (cam.scalar / cam.aspect_ratio * η)
    linarith
  have hm := Double3.magnitude_pos hs hpos
  have hn : ((cam.position.add (((pixel_direction cam ξ η).normalise sqrt).scale t)).sub
      cam.position).normalise sqrt
      = (pixel_direction cam ξ η).divide ((pixel_direction cam ξ η).magnitude sqrt) := by
    rw [Camera.add_scale_sub, Double3.normalise_scale hs _ ht]
    have e : (pixel_direction cam ξ η).normalise sqrt
        = (pixel_direction cam ξ η).divide ((pixel_direction cam ξ η).magnitude sqrt) := rfl
    rw [e, normalise_divide hs _ hm, e]
  have hcos : cam.cos_theta sqrt
      (cam.position.add (((pixel_direction cam ξ η).normalise sqrt).scale t))
      = 1 / (pixel_direction cam ξ η).magnitude sqrt := by
    unfold Camera.cos_theta
    rw [hn, Double3.dot_divide_left, h1]
  have hm' := hm.ne'
  have hsc' := hsc.ne'
  have har' := har.ne'
  refine ⟨by rw [hcos]; positivity, ?_, ?_⟩
  · unfold Camera.sensor_x
    rw [hcos, hn, Double3.dot_divide_left, h2]
    field_simp
  · unfold Camera.sensor_y
    rw [hcos, hn, Double3.dot_divide_left, h3]
    field_simp
    ring

/-- The direction returned by `generate_ray` is the normalised `pixel_direction`
at the offsets computed from the pixel and the two draws. -/
theorem generate_ray_direction {R : Type} (sqrt : K → K) (gen : Mersenne K R) (cam : Camera K)
    (x y : Nat) (prng : R) :
    (cam.generate_ray sqrt gen x y prng).1.direction =
      (pixel_direction cam
        (((x : K) + ((gen.get_float prng).1 - 1 / 2)) * cam.dx - 1 / 2)
        (((y : K) + ((gen.get_float (gen.get_float prng).2).1 - 1 / 2)) * cam.dy - 1 / 2)
        ).normalise sqrt := rfl

end RoundTrip

section RoundTripClaims

variable {K : Type} [LinearOrderedField K]

/-- For a constructed camera with positive focal length and image dimensions, the
point at distance `t > 0` along the ray of `generate_ray( x, y )` lies in front of
the camera and `sensor` recomputes the sensor offsets of `generate_ray`:
`( x + rnd_x ) * dx - 0.5` and `( y + rnd_y ) * dy - 0.5`. -/
theorem generate_ray_sensor_offsets {R : Type} {sqrt : K → K} (hs : IsSqrt sqrt)
    {position look_at : Double3 K} {focal_length : K} {config : Config} {cam : Camera K}
    (hc : Camera.create sqrt position look_at focal_length config = Except.ok cam)
    (hf : 0 < focal_length) (hw : 0 < config.image_width) (hh : 0 < config.image_height)
    (gen : Mersenne K R) (x y : Nat) (prng : R) (t : K) (ht : 0 < t) :
    0 < cam.cos_theta sqrt
      (cam.position.add ((cam.generate_ray sqrt gen x y prng).1.direction.scale t)) ∧
    cam.sensor_x sqrt
      (cam.position.add ((cam.generate_ray sqrt gen x y prng).1.direction.scale t)) =
        ((x : K) + ((gen.get_float prng).1 - 1 / 2)) * cam.dx - 1 / 2 ∧
    cam.sensor_y sqrt
      (cam.position.add ((cam.generate_ray sqrt gen x y prng).1.direction.scale t)) =
        ((y : K) + ((gen.get_float (gen.get_float prng).2).1 - 1 / 2)) * cam.dy - 1 / 2 := by
  obtain ⟨hff, hrr, huu, hfr, hfu, hru⟩ := Camera.create_orthonormal hs hc
  obtain ⟨hsc, har, -⟩ := Camera.create_sensor_area_pos hc hf hw hh
  rw [generate_ray_direction]
  exact project_pixel_direction hs cam _ _ t hff hrr huu hfr hfu hru hsc har ht

/-- C2, evaluated on the scenario camera (4 x 2 image, `dx = 1/3`, `dy = 1`).
With both draws equal to 1/4 (jitter -1/4), the point at distance 1 along the ray
of pixel (0, 0) is rejected by `sensor`.  With both draws equal to 9/10 (jitter
+2/5), the point along the ray of pixel (2, 0) is accepted with image
coordinates (16/5, 4/5): more than one pixel away from 2 in `x`. -/
theorem generate_ray_round_trip_fails :
    Camera.create Real.sqrt Double3.Zero Double3.Y 50 frontConfig = Except.ok (frontCamera ℝ) ∧
    ((frontCamera ℝ).sensor Real.sqrt
      ((frontCamera ℝ).position.add
        (((frontCamera ℝ).generate_ray Real.sqrt (constantGenerator (1 / 4)) 0 0 ()).1.direction.scale
          1)) (frontCamera ℝ).position).2.2 = false ∧
    (frontCamera ℝ).sensor Real.sqrt
      ((frontCamera ℝ).position.add
        (((frontCamera ℝ).generate_ray Real.sqrt (constantGenerator (9 / 10)) 2 0 ()).1.direction.scale
          1)) (frontCamera ℝ).position = (16 / 5, 4 / 5, true) := by
  refine ⟨create_frontCamera, ?_, ?_⟩
  · obtain ⟨-, hx, -⟩ := generate_ray_sensor_offsets isSqrt_real create_frontCamera
      (by norm_num) (by decide) (by decide) (constantGenerator (1 / 4 : ℝ)) 0 0 () 1 one_pos
    rw [← Bool.not_eq_true, Camera.sensor_valid_iff, hx]
    rintro ⟨-, h, -⟩
    simp only [constantGenerator, frontCamera] at h
    norm_num [abs_le] at h
  · obtain ⟨hcos, hx, hy⟩ := generate_ray_sensor_offsets isSqrt_real create_frontCamera
      (by norm_num) (by decide) (by decide) (constantGenerator (9 / 10 : ℝ)) 2 0 () 1 one_pos
    rw [Camera.sensor_eq, hx, hy]
    have h1 : ¬ (frontCamera ℝ).cos_theta Real.sqrt
        ((frontCamera ℝ).position.add
          (((frontCamera ℝ).generate_ray Real.sqrt (constantGenerator (9 / 10)) 2 0
            ()).1.direction.scale 1)) ≤ 0 := not_le.mpr hcos
    simp only [h1, if_false]
    simp only [constantGenerator, frontCamera]
    norm_num [abs_le, abs_lt]

end RoundTripClaims

section DensityValue

variable {K : Type} [LinearOrderedField K]

/-- A camera constructed at the origin with look-at point `(0, L, 0)`, `L > 0`,
looks down `+Y`, and every point `(0, d, 0)` with `d > 0` has cosine 1 and sensor
coordinates `(0, 0)`. -/
theorem forward_axis_point {sqrt : K → K} (hs : IsSqrt sqrt) {L d focal_length : K}
    {config : Config} {cam : Camera K} (hL : 0 < L) (hd : 0 < d)
    (hc : Camera.create sqrt Double3.Zero ⟨0, L, 0⟩ focal_length config = Except.ok cam) :
    cam.cos_theta sqrt ⟨0, d, 0⟩ = 1 ∧ cam.sensor_x sqrt ⟨0, d, 0⟩ = 0 ∧
      cam.sensor_y sqrt ⟨0, d, 0⟩ = 0 := by
  obtain ⟨hff, -, -, hfr, hfu, -⟩ := Camera.create_orthonormal hs hc
  obtain ⟨-, hp, hf, -⟩ := Camera.create_ok_fields hc
  have hY : (Double3.Y : Double3 K).normalise sqrt = Double3.Y :=
    Double3.normalise_of_unit hs (by simp [Double3.dot, Double3.Y])
  have hsc : ∀ a : K, 0 < a → (⟨0, a, 0⟩ : Double3 K).normalise sqrt = Double3.Y := by
    intro a ha
    have e : (⟨0, a, 0⟩ : Double3 K) = (Double3.Y : Double3 K).scale a := by
      simp [Double3.Y, Double3.scale]
    rw [e, Double3.normalise_scale hs _ ha, hY]
  have hfw : cam.forward = Double3.Y := by rw [hf, sub_zero_vec, hsc L hL]
  have hdir : ((⟨0, d, 0⟩ : Double3 K).sub cam.position).normalise sqrt = cam.forward := by
    rw [hp, sub_zero_vec, hsc d hd, hfw]
  refine ⟨?_, ?_, ?_⟩
  · unfold Camera.cos_theta; rw [hdir, hff]
  · unfold Camera.sensor_x; rw [hdir, hfr, zero_div]
  · unfold Camera.sensor_y; rw [hdir, hfu, zero_div]

/-- C5. On every accepted world point `pdf` returns `cos^3(theta) / sensor_area`,
where, for a constructed camera, `sensor_area = scalar^2 / aspect_ratio` and
`scalar = 36 / focal_length`.  For the camera at the origin looking at `+Y` with
focal length 50 and a 2:1 image, every point `(0, d, 0)` with `d > 0` is accepted
and `pdf` equals `625/162`. -/
theorem pdf_cos_cubed_over_area (sqrt : K → K) (hs : IsSqrt sqrt) :
    (∀ (position look_at : Double3 K) (focal_length : K) (config : Config) (cam : Camera K)
      (world_point lens_point : Double3 K),
      Camera.create sqrt position look_at focal_length config = Except.ok cam →
      (cam.sensor sqrt world_point lens_point).2.2 = true →
      cam.pdf sqrt world_point lens_point = cam.cos_theta sqrt world_point ^ 3 / cam.sensor_area ∧
        cam.sensor_area = cam.scalar ^ 2 / cam.aspect_ratio ∧
        cam.scalar = 36 / focal_length) ∧
    (∀ (L d : K) (config : Config) (cam : Camera K) (lens_point : Double3 K),
      1 / 1000 ≤ L → 0 < d → 0 < config.image_height →
      config.image_width = 2 * config.image_height →
      Camera.create sqrt Double3.Zero ⟨0, L, 0⟩ 50 config = Except.ok cam →
      (cam.sensor sqrt ⟨0, d, 0⟩ lens_point).2.2 = true ∧
        cam.pdf sqrt ⟨0, d, 0⟩ lens_point = 625 / 162) := by
  constructor
  · intro position look_at focal_length config cam world_point lens_point hc hv
    obtain ⟨-, -, -, -, -, hsc, -, hsa, -⟩ := Camera.create_ok_fields hc
    refine ⟨?_, by rw [hsa]; ring, hsc⟩
    rw [Camera.pdf_of_valid sqrt cam world_point lens_point hv, one_div, inv_div]
    ring
  · intro L d config cam lens_point hL hd hh hw hc
    have hL' : 0 < L := lt_of_lt_of_le (by norm_num) hL
    obtain ⟨h1, h2, h3⟩ := forward_axis_point hs hL' hd hc
    have hv : (cam.sensor sqrt ⟨0, d, 0⟩ lens_point).2.2 = true := by
      rw [Camera.sensor_valid_iff, h1, h2, h3]
      norm_num
    refine ⟨hv, ?_⟩
    obtain ⟨-, -, -, -, -, hsc, har, hsa, -⟩ := Camera.create_ok_fields hc
    rw [Camera.pdf_of_valid sqrt cam _ lens_point hv, h1, hsa, hsc, har, hw]
    have hh' : (config.image_height : K) ≠ 0 := by
      have : (0 : K) < (config.image_height : K) := by exact_mod_cast hh
      exact this.ne'
    push_cast
    field_simp
    norm_num

/-- C5, at the scenario camera and the point three units ahead of it. -/
theorem pdf_cos_cubed_over_area_witness :
    IsSqrt Real.sqrt ∧
    Camera.create Real.sqrt Double3.Zero ⟨0, 1, 0⟩ 50 frontConfig = Except.ok (frontCamera ℝ) ∧
    (1 / 1000 : ℝ) ≤ 1 ∧ (0 : ℝ) < 3 ∧ 0 < frontConfig.image_height ∧
    frontConfig.image_width = 2 * frontConfig.image_height ∧
    ((frontCamera ℝ).sensor Real.sqrt ⟨0, 3, 0⟩ Double3.Zero).2.2 = true ∧
    (frontCamera ℝ).pdf Real.sqrt ⟨0, 3, 0⟩ Double3.Zero = 625 / 162 ∧
    (frontCamera ℝ).pdf Real.sqrt ⟨0, 3, 0⟩ Double3.Zero =
      (frontCamera ℝ).cos_theta Real.sqrt ⟨0, 3, 0⟩ ^ 3 / (frontCamera ℝ).sensor_area ∧
    (frontCamera ℝ).sensor_area = (frontCamera ℝ).scalar ^ 2 / (frontCamera ℝ).aspect_ratio ∧
    (frontCamera ℝ).scalar = 36 / 50 := by
  have h := pdf_cos_cubed_over_area Real.sqrt isSqrt_real
  have h2 := h.2 1 3 frontConfig (frontCamera ℝ) Double3.Zero (by norm_num) (by norm_num)
    (by decide) (by decide) create_frontCamera
  have h1 := h.1 Double3.Zero ⟨0, 1, 0⟩ 50 frontConfig (frontCamera ℝ) ⟨0, 3, 0⟩ Double3.Zero
    create_frontCamera h2.1
  exact ⟨isSqrt_real, create_frontCamera, by norm_num, by norm_num, by decide, by decide,
    h2.1, h2.2, h1.1, h1.2.1, h1.2.2⟩

end DensityValue

/-! ## Claims about the triangle emitter -/

section EmitterClaims

variable {K : Type} [LinearOrderedField K] {R O : Type}

/-- C9. For an area emitter built from a non-degenerate triangle `(a, b, c)`, every
call of `emit` returns `pdf_area = 1 / (0.5 * |(b - a) x (c - a)|)`, whatever the
state of the random generator; the triangle's area `0.5 * |(b - a) x (c - a)|` is
positive and `pdf_area` is its reciprocal. -/
theorem emit_pdf_area (sqrt : K → K) (hs : IsSqrt sqrt) (pi : K) (smp : Sampling K R O)
    (a b c : Double3 K) (energy : Colour K)
    (hnd : (b.sub a).cross (c.sub a) ≠ Double3.Zero) (prng : R) :
    ((Emitter.Triangle.create sqrt smp a b c energy).emit pi smp prng).1.pdf_area =
      1 / (1 / 2 * ((b.sub a).cross (c.sub a)).magnitude sqrt) ∧
    0 < 1 / 2 * ((b.sub a).cross (c.sub a)).magnitude sqrt ∧
    ((Emitter.Triangle.create sqrt smp a b c energy).emit pi smp prng).1.pdf_area *
      (1 / 2 * ((b.sub a).cross (c.sub a)).magnitude sqrt) = 1 := by
  have hm := Double3.magnitude_pos hs (Double3.dot_self_pos hnd)
  have hpos : 0 < 1 / 2 * ((b.sub a).cross (c.sub a)).magnitude sqrt := by positivity
  refine ⟨rfl, hpos, ?_⟩
  show 1 / (1 / 2 * ((b.sub a).cross (c.sub a)).magnitude sqrt) *
    (1 / 2 * ((b.sub a).cross (c.sub a)).magnitude sqrt) = 1
  exact one_div_mul_cancel hpos.ne'

/-- C9, at the triangle `(0,0,0), (1,0,0), (0,1,0)` of area 1/2. -/
theorem emit_pdf_area_witness :
    IsSqrt Real.sqrt ∧
    ((⟨1, 0, 0⟩ : Double3 ℝ).sub ⟨0, 0, 0⟩).cross ((⟨0, 1, 0⟩ : Double3 ℝ).sub ⟨0, 0, 0⟩)
      ≠ Double3.Zero ∧
    ((Emitter.Triangle.create Real.sqrt (constantSampling ℝ) ⟨0, 0, 0⟩ ⟨1, 0, 0⟩ ⟨0, 1, 0⟩
        ⟨5, 5, 5⟩).emit Real.pi (constantSampling ℝ) ()).1.pdf_area =
      1 / (1 / 2 * (((⟨1, 0, 0⟩ : Double3 ℝ).sub ⟨0, 0, 0⟩).cross
        ((⟨0, 1, 0⟩ : Double3 ℝ).sub ⟨0, 0, 0⟩)).magnitude Real.sqrt) := by
  have hnd : ((⟨1, 0, 0⟩ : Double3 ℝ).sub ⟨0, 0, 0⟩).cross
      ((⟨0, 1, 0⟩ : Double3 ℝ).sub ⟨0, 0, 0⟩) ≠ Double3.Zero := by
    intro h
    have := congrArg Double3.z h
    simp [Double3.cross, Double3.sub, Double3.Zero] at this
  exact ⟨isSqrt_real, hnd,
    (emit_pdf_area Real.sqrt isSqrt_real Real.pi (constantSampling ℝ) ⟨0, 0, 0⟩ ⟨1, 0, 0⟩
      ⟨0, 1, 0⟩ ⟨5, 5, 5⟩ hnd ()).1⟩

/-- C10. For every sample returned by `emit`, with `cos(theta)` the `z` component
of the hemisphere sample in the local frame: the energy is the emitter's radiance
times `cos(theta)`, the direction density is `cos(theta) / pi`, and whenever
`cos(theta) > 0` the quotient `cos(theta) / pdf_direction` is `pi`. -/
theorem emit_cosine_law (pi : K) (hpi : 0 < pi) (smp : Sampling K R O)
    (t : Emitter.Triangle K O) (prng : R) :
    (t.emit pi smp prng).1.energy =
      t.energy.scale (smp.HemiSphere (smp.Triangle prng).2).1.z ∧
    (t.emit pi smp prng).1.pdf_direction = (smp.HemiSphere (smp.Triangle prng).2).1.z / pi ∧
    (0 < (smp.HemiSphere (smp.Triangle prng).2).1.z →
      (smp.HemiSphere (smp.Triangle prng).2).1.z / (t.emit pi smp prng).1.pdf_direction = pi) := by
  have hd : (t.emit pi smp prng).1.pdf_direction
      = (smp.HemiSphere (smp.Triangle prng).2).1.z / pi := by
    show inv_pi pi * (smp.HemiSphere (smp.Triangle prng).2).1.z = _
    unfold inv_pi
    ring
  refine ⟨rfl, hd, ?_⟩
  intro hz
  rw [hd]
  have h1 := hz.ne'
  have h2 := hpi.ne'
  field_simp

/-- C10, at the unit triangle with `pi` the real circle constant and the
hemisphere sample at the pole. -/
theorem emit_cosine_law_witness :
    (0 : ℝ) < Real.pi ∧
    (0 : ℝ) < ((constantSampling ℝ).HemiSphere ((constantSampling ℝ).Triangle ()).2).1.z ∧
    ((constantSampling ℝ).HemiSphere ((constantSampling ℝ).Triangle ()).2).1.z /
      ((Emitter.Triangle.create Real.sqrt (constantSampling ℝ) ⟨0, 0, 0⟩ ⟨1, 0, 0⟩ ⟨0, 1, 0⟩
        ⟨5, 5, 5⟩).emit Real.pi (constantSampling ℝ) ()).1.pdf_direction = Real.pi := by
  have hz : (0 : ℝ) < ((constantSampling ℝ).HemiSphere ((constantSampling ℝ).Triangle ()).2).1.z := by
    simp [constantSampling, Double3.Z]
  exact ⟨Real.pi_pos, hz,
    (emit_cosine_law Real.pi Real.pi_pos (constantSampling ℝ)
      (Emitter.Triangle.create Real.sqrt (constantSampling ℝ) ⟨0, 0, 0⟩ ⟨1, 0, 0⟩ ⟨0, 1, 0⟩
        ⟨5, 5, 5⟩) ()).2.2 hz⟩

end EmitterClaims

/-! ## Path length of the light tracer -/

namespace Integrator

section PathLength

variable {K : Type} [LinearOrderedField K] {R X : Type}

/-- One iteration calls `scene.intersect` once and `material.sample` at most once;
when the loop continues the depth has grown by one modulo 256 and does not exceed
`max_path_length`. -/
theorem trace_step_spec (sqrt : K → K) (lt : LT K R X) (lens_point : Double3 K)
    (path : Path K) (st : State K R) :
    (trace_step sqrt lt lens_point path st).1.intersections = st.intersections + 1 ∧
    (trace_step sqrt lt lens_point path st).1.scatterings ≤ st.scatterings + 1 ∧
    st.scatterings ≤ (trace_step sqrt lt lens_point path st).1.scatterings ∧
    (∀ next, (trace_step sqrt lt lens_point path st).2 = some next →
      next.depth = (path.depth + 1) % 256 ∧ next.depth ≤ lt.max_path_length) := by
  unfold trace_step
  by_cases hh : (lt.scene.intersect path.ray).1 = true
  · simp only [hh, Bool.not_true, Bool.false_eq_true, if_false]
    split
    · refine ⟨?_, ?_, ?_, ?_⟩
      · split <;> rfl
      · split <;> exact le_rfl
      · split <;> exact Nat.le_succ _
      · intro next h; cases h
    · split
      · refine ⟨?_, ?_, ?_, ?_⟩
        · split <;> rfl
        · split <;> exact le_rfl
        · split <;> exact Nat.le_succ _
        · intro next h; cases h
      · rename_i hd
        refine ⟨?_, ?_, ?_, ?_⟩
        · split <;> rfl
        · split <;> exact le_rfl
        · split <;> exact Nat.le_succ _
        · intro next h
          simp only [Option.some.injEq] at h
          subst h
          exact ⟨rfl, not_lt.mp hd⟩
  · simp only [hh, Bool.not_false, if_true]
    exact ⟨trivial, Nat.le_succ _, le_rfl, fun next h => by cases h⟩

/-- With `max_path_length < 255` the loop entered at depth `d <= max_path_length`
returns within `max_path_length + 1 - d` iterations, and performs at most that
many scattering events. -/
theorem trace_loop_bounded (sqrt : K → K) (lt : LT K R X) (lens_point : Double3 K)
    (hN : lt.max_path_length < 255) :
    ∀ (k fuel : Nat) (path : Path K) (st : State K R),
      path.depth + k = lt.max_path_length → k < fuel →
      ∃ st1, trace_loop sqrt lt lens_point fuel path st = some st1 ∧
        st1.scatterings ≤ st.scatterings + (k + 1) ∧
        st1.intersections ≤ st.intersections + (k + 1) := by
  intro k
  induction k with
  | zero =>
    intro fuel path st hd hf
    obtain ⟨fuel, rfl⟩ : ∃ n, fuel = n + 1 := ⟨fuel - 1, by omega⟩
    obtain ⟨h1, h2, -, h4⟩ := trace_step_spec sqrt lt lens_point path st
    unfold trace_loop
    rcases hstep : trace_step sqrt lt lens_point path st with ⟨st1, _ | next⟩
    · rw [hstep] at h1 h2
      exact ⟨st1, rfl, h2, by simp only at h1; omega⟩
    · exfalso
      rw [hstep] at h4
      obtain ⟨e1, e2⟩ := h4 next rfl
      omega
  | succ k ih =>
    intro fuel path st hd hf
    obtain ⟨fuel, rfl⟩ : ∃ n, fuel = n + 1 := ⟨fuel - 1, by omega⟩
    obtain ⟨h1, h2, -, h4⟩ := trace_step_spec sqrt lt lens_point path st
    unfold trace_loop
    rcases hstep : trace_step sqrt lt lens_point path st with ⟨st1, _ | next⟩
    · rw [hstep] at h1 h2
      exact ⟨st1, rfl, by simp only at h2; omega, by simp only at h1; omega⟩
    · rw [hstep] at h1 h2 h4
      obtain ⟨e1, -⟩ := h4 next rfl
      have hnext : next.depth + k = lt.max_path_length := by omega
      obtain ⟨st2, r1, r2, r3⟩ := ih fuel next st1 hnext (by omega)
      simp only at h1 h2
      exact ⟨st2, r1, by omega, by omega⟩

/-- For `1 <= max_path_length <= 254`, `trace_emission_path` returns whenever the
fuel is at least `max_path_length`, after at most `max_path_length` scattering
events and as many intersection queries. -/
theorem trace_emission_path_bounded (sqrt : K → K) (lt : LT K R X)
    (h1 : 1 ≤ lt.max_path_length) (hN : lt.max_path_length < 255) (fuel : Nat)
    (hf : lt.max_path_length ≤ fuel) (st : State K R) :
    ∃ st1, trace_emission_path sqrt lt fuel st = some st1 ∧
      st1.scatterings ≤ st.scatterings + lt.max_path_length ∧
      st1.intersections ≤ st.intersections + lt.max_path_length := by
  unfold trace_emission_path
  obtain ⟨st1, r1, r2, r3⟩ := trace_loop_bounded sqrt lt
    (lt.camera.sample_lens ((lt.scene.emitter (lt.scene.random_emitter st.prng).1).1.emit
      (lt.scene.random_emitter st.prng).2).2).1 hN (lt.max_path_length - 1) fuel
    { throughput :=
        ((lt.scene.emitter (lt.scene.random_emitter st.prng).1).1.emit
          (lt.scene.random_emitter st.prng).2).1.energy.divide
          ((lt.scene.emitter (lt.scene.random_emitter st.prng).1).2 *
            ((lt.scene.emitter (lt.scene.random_emitter st.prng).1).1.emit
              (lt.scene.random_emitter st.prng).2).1.pdf_direction *
            ((lt.scene.emitter (lt.scene.random_emitter st.prng).1).1.emit
              (lt.scene.random_emitter st.prng).2).1.pdf_area)
      ray := ⟨((lt.scene.emitter (lt.scene.random_emitter st.prng).1).1.emit
          (lt.scene.random_emitter st.prng).2).1.point,
        ((lt.scene.emitter (lt.scene.random_emitter st.prng).1).1.emit
          (lt.scene.random_emitter st.prng).2).1.direction, some lt.EPSILON_RAY⟩
      depth := 1 }
    { st with prng := (lt.camera.sample_lens
        ((lt.scene.emitter (lt.scene.random_emitter st.prng).1).1.emit
          (lt.scene.random_emitter st.prng).2).2).2 }
    (by simp only; omega) (by omega)
  refine ⟨st1, r1, ?_, ?_⟩
  · simp only at r2; omega
  · simp only at r3; omega

end PathLength

end Integrator

section PathLengthClaims

open Integrator

variable {K : Type} [LinearOrderedField K]

/-- In the mirror scene with `max_path_length = 255` every iteration of the trace
loop performs one scattering event and goes round again: the 8-bit depth never
exceeds 255. -/
theorem mirror_step_continues (sqrt : K → K) (lens_point : Double3 K) (path : Path K)
    (st : State K Unit) :
    ∃ next, trace_step sqrt (mirrorLT K) lens_point path st =
      ({ st with intersections := st.intersections + 1, scatterings := st.scatterings + 1 },
        some next) := by
  have hd : ¬ (path.depth + 1) % 256 > 255 := by omega
  unfold trace_step
  simp only [mirrorLT, LT.create, mirrorScene, mirrorMaterial, scatter, Bool.not_true,
    Bool.false_eq_true, if_false, Nat.reduceMod, hd]
  exact ⟨_, rfl⟩

theorem mirror_loop_never_returns (sqrt : K → K) (lens_point : Double3 K) :
    ∀ (fuel : Nat) (path : Path K) (st : State K Unit),
      trace_loop sqrt (mirrorLT K) lens_point fuel path st = none := by
  intro fuel
  induction fuel with
  | zero => intro path st; rfl
  | succ n ih =>
    intro path st
    obtain ⟨next, h⟩ := mirror_step_continues sqrt lens_point path st
    unfold trace_loop
    rw [h]
    exact ih _ _

/-- C1, evaluated at `max_path_length = 255` in the mirror scene: whatever the
fuel, `trace_emission_path` does not return, and every iteration of its loop
performs one more scattering event and continues.  The bound of the claim holds
for `1 <= max_path_length <= 254` (`Integrator.trace_emission_path_bounded`). -/
theorem trace_emission_path_255_never_returns (sqrt : K → K) :
    (mirrorLT K).max_path_length = 255 ∧
    (∀ (fuel : Nat) (st : State K Unit),
      trace_emission_path sqrt (mirrorLT K) fuel st = none) ∧
    (∀ (lens_point : Double3 K) (path : Path K) (st : State K Unit),
      ∃ next, trace_step sqrt (mirrorLT K) lens_point path st =
        ({ st with intersections := st.intersections + 1,
                   scatterings := st.scatterings + 1 }, some next)) := by
  refine ⟨rfl, ?_, mirror_step_continues sqrt⟩
  intro fuel st
  unfold trace_emission_path
  exact mirror_loop_never_returns sqrt _ fuel _ _

end PathLengthClaims

/-! ## Seeds, lens point and image coordinates -/

section SeedClaims

open Integrator

/-- Equal seeds force equal pixel coordinates when both `y` values are below
4919: the multipliers 4919 and 48879 are coprime. -/
theorem process_seed_eq_imp (x1 y1 x2 y2 : Nat) (hy1 : y1 < 4919) (hy2 : y2 < 4919)
    (h : process_seed x1 y1 = process_seed x2 y2) : x1 = x2 ∧ y1 = y2 := by
  unfold process_seed at h
  have hz : ((y1 : Int) - y2) * 48879 = 4919 * ((x2 : Int) - x1) := by
    have := congrArg (fun n : Nat => (n : Int)) h
    simp only [Nat.cast_add, Nat.cast_mul, Nat.cast_one, Nat.cast_ofNat] at this
    linarith
  have hc : IsCoprime (4919 : Int) 48879 := by
    rw [Int.isCoprime_iff_gcd_eq_one]; norm_num
  have hd : (4919 : Int) ∣ ((y1 : Int) - y2) := hc.dvd_of_dvd_mul_right ⟨_, hz⟩
  have h1 : (y1 : Int) < 4919 := by exact_mod_cast hy1
  have h2 : (y2 : Int) < 4919 := by exact_mod_cast hy2
  have h3 : (0 : Int) ≤ y1 := Int.ofNat_nonneg _
  have h4 : (0 : Int) ≤ y2 := Int.ofNat_nonneg _
  have hy0 : (y1 : Int) - y2 = 0 :=
    Int.eq_zero_of_abs_lt_dvd hd (abs_lt.mpr ⟨by linarith, by linarith⟩)
  have hy : (y1 : Int) = y2 := by linarith
  have hx : (x1 : Int) = x2 := by
    rw [hy0] at hz
    linarith
  exact ⟨by exact_mod_cast hx, by exact_mod_cast hy⟩

theorem process_seed_lt (x y : Nat) (hx : x < 65536) (hy : y < 4919) :
    process_seed x y < 2 ^ 31 := by
  unfold process_seed
  omega

/-- C18. The per-pixel seed `(x + 1) * 0x1337 + (y + 1) * 0xbeef` separates
pixels: for 16-bit `x` values and `y` values below 4919, two distinct pixel
coordinates have different seeds, and the seed stays below `2^31`. -/
theorem process_seed_injective (x1 y1 x2 y2 : Nat) (hx1 : x1 < 65536) (hx2 : x2 < 65536)
    (hy1 : y1 < 4919) (hy2 : y2 < 4919) (hne : (x1, y1) ≠ (x2, y2)) :
    process_seed x1 y1 ≠ process_seed x2 y2 ∧
      process_seed x1 y1 < 2 ^ 31 ∧ process_seed x2 y2 < 2 ^ 31 := by
  refine ⟨?_, process_seed_lt x1 y1 hx1 hy1, process_seed_lt x2 y2 hx2 hy2⟩
  intro h
  obtain ⟨hx, hy⟩ := process_seed_eq_imp x1 y1 x2 y2 hy1 hy2 h
  exact hne (by rw [hx, hy])

/-- C18, at the pixels (0, 1) and (1, 0). -/
theorem process_seed_injective_witness :
    (0 : Nat) < 65536 ∧ (1 : Nat) < 65536 ∧ (1 : Nat) < 4919 ∧ (0 : Nat) < 4919 ∧
    ((0 : Nat), (1 : Nat)) ≠ (1, 0) ∧
    process_seed 0 1 ≠ process_seed 1 0 ∧
      process_seed 0 1 < 2 ^ 31 ∧ process_seed 1 0 < 2 ^ 31 :=
  ⟨by decide, by decide, by decide, by decide, by decide,
    process_seed_injective 0 1 1 0 (by decide) (by decide) (by decide) (by decide) (by decide)⟩

end SeedClaims

section LensClaims

open Integrator

variable {K : Type} [LinearOrderedField K] {R X : Type}

/-- The camera connection in terms of its named parts. -/
theorem Integrator.connect_eq (sqrt : K → K) (lt : LT K R X) (lens_point : Double3 K)
    (p_material : BxDF.Polymorphic K R X) (idata : Interaction K X)
    (throughput : Colour K) (splashes : List (Splash K)) :
    connect sqrt lt lens_point p_material idata throughput splashes =
      if (lt.camera.sensor sqrt idata.point lens_point).2.2 = true then
        if (!lt.scene.occluded (connection_ray sqrt lt lens_point idata)
            (evaluate_distance sqrt lens_point idata - 2 * lt.EPSILON_RAY)) = true then
          { x := (lt.camera.sensor sqrt idata.point lens_point).1
            y := (lt.camera.sensor sqrt idata.point lens_point).2.1
            colour := splash_value sqrt lt lens_point p_material idata throughput } :: splashes
        else splashes
      else splashes := rfl

/-- The prologue of `trace_emission_path` followed by the loop. -/
theorem Integrator.trace_emission_path_eq (sqrt : K → K) (lt : LT K R X) (fuel : Nat)
    (st : State K R) :
    trace_emission_path sqrt lt fuel st =
      trace_loop sqrt lt (emission_start lt st.prng).2.1 fuel (emission_start lt st.prng).1
        { st with prng := (emission_start lt st.prng).2.2 } := rfl

/-- C17. Whenever `sensor` reports `valid = true`, the normalised coordinates lie
in `[-1/2, 1/2]`, the returned image coordinates are `(x + 1/2) * image_width` and
`(y + 1/2) * image_height`, and they satisfy `0 <= pixel_x <= image_width`,
`0 <= pixel_y <= image_height`.  The upper bound is attained: a point in front of
the camera that projects to `x = 1/2` is accepted with `pixel_x = image_width`. -/
theorem sensor_pixel_bounds (sqrt : K → K) (cam : Camera K) (world_point lens_point : Double3 K) :
    ((cam.sensor sqrt world_point lens_point).2.2 = true →
      |cam.sensor_x sqrt world_point| ≤ 1 / 2 ∧ |cam.sensor_y sqrt world_point| ≤ 1 / 2 ∧
      (cam.sensor sqrt world_point lens_point).1 =
        (cam.sensor_x sqrt world_point + 1 / 2) * (cam.image_width : K) ∧
      (cam.sensor sqrt world_point lens_point).2.1 =
        (cam.sensor_y sqrt world_point + 1 / 2) * (cam.image_height : K) ∧
      0 ≤ (cam.sensor sqrt world_point lens_point).1 ∧
      (cam.sensor sqrt world_point lens_point).1 ≤ (cam.image_width : K) ∧
      0 ≤ (cam.sensor sqrt world_point lens_point).2.1 ∧
      (cam.sensor sqrt world_point lens_point).2.1 ≤ (cam.image_height : K)) ∧
    (0 < cam.cos_theta sqrt world_point → cam.sensor_x sqrt world_point = 1 / 2 →
      |cam.sensor_y sqrt world_point| ≤ 1 / 2 →
      (cam.sensor sqrt world_point lens_point).2.2 = true ∧
      (cam.sensor sqrt world_point lens_point).1 = (cam.image_width : K)) := by
  have key : ∀ (hc : 0 < cam.cos_theta sqrt world_point)
      (hx : |cam.sensor_x sqrt world_point| ≤ 1 / 2)
      (hy : |cam.sensor_y sqrt world_point| ≤ 1 / 2),
      cam.sensor sqrt world_point lens_point =
        ((cam.sensor_x sqrt world_point + 1 / 2) * (cam.image_width : K),
          (cam.sensor_y sqrt world_point + 1 / 2) * (cam.image_height : K), true) := by
    intro hc hx hy
    rw [Camera.sensor_eq]
    have h1 : ¬ cam.cos_theta sqrt world_point ≤ 0 := not_le.mpr hc
    have h2 : ¬ (|cam.sensor_x sqrt world_point| > 1 / 2 ∨
        |cam.sensor_y sqrt world_point| > 1 / 2) := by
      rw [not_or]; exact ⟨not_lt.mpr hx, not_lt.mpr hy⟩
    simp only [h1, h2, if_false]
  constructor
  · intro hv
    obtain ⟨hc, hx, hy⟩ := (Camera.sensor_valid_iff sqrt cam world_point lens_point).mp hv
    have e := key hc hx hy
    have hw : (0 : K) ≤ (cam.image_width : K) := Nat.cast_nonneg _
    have hh : (0 : K) ≤ (cam.image_height : K) := Nat.cast_nonneg _
    obtain ⟨hx1, hx2⟩ := abs_le.mp hx
    obtain ⟨hy1, hy2⟩ := abs_le.mp hy
    rw [e]
    refine ⟨hx, hy, rfl, rfl, ?_, ?_, ?_, ?_⟩
    · exact mul_nonneg (by linarith) hw
    · calc (cam.sensor_x sqrt world_point + 1 / 2) * (cam.image_width : K)
          ≤ 1 * (cam.image_width : K) := mul_le_mul_of_nonneg_right (by linarith) hw
        _ = (cam.image_width : K) := one_mul _
    · exact mul_nonneg (by linarith) hh
    · calc (cam.sensor_y sqrt world_point + 1 / 2) * (cam.image_height : K)
          ≤ 1 * (cam.image_height : K) := mul_le_mul_of_nonneg_right (by linarith) hh
        _ = (cam.image_height : K) := one_mul _
  · intro hc hx hy
    have hx' : |cam.sensor_x sqrt world_point| ≤ 1 / 2 := by
      rw [hx]; exact le_of_eq (abs_of_pos (by norm_num))
    rw [key hc hx' hy, hx]
    exact ⟨rfl, by norm_num⟩

/-- C17, at the scenario camera (4 x 2 image) and the point at distance 1 along
the direction with sensor offsets `(1/2, 0)`: accepted, with `pixel_x = 4`. -/
theorem sensor_pixel_bounds_witness :
    0 < (frontCamera ℝ).cos_theta Real.sqrt ((frontCamera ℝ).position.add
      (((pixel_direction (frontCamera ℝ) (1 / 2) 0).normalise Real.sqrt).scale 1)) ∧
    (frontCamera ℝ).sensor_x Real.sqrt ((frontCamera ℝ).position.add
      (((pixel_direction (frontCamera ℝ) (1 / 2) 0).normalise Real.sqrt).scale 1)) = 1 / 2 ∧
    |(frontCamera ℝ).sensor_y Real.sqrt ((frontCamera ℝ).position.add
      (((pixel_direction (frontCamera ℝ) (1 / 2) 0).normalise Real.sqrt).scale 1))| ≤ 1 / 2 ∧
    ((frontCamera ℝ).sensor Real.sqrt ((frontCamera ℝ).position.add
      (((pixel_direction (frontCamera ℝ) (1 / 2) 0).normalise Real.sqrt).scale 1))
        Double3.Zero).2.2 = true ∧
    ((frontCamera ℝ).sensor Real.sqrt ((frontCamera ℝ).position.add
      (((pixel_direction (frontCamera ℝ) (1 / 2) 0).normalise Real.sqrt).scale 1))
        Double3.Zero).1 = ((frontCamera ℝ).image_width : ℝ) ∧
    ((frontCamera ℝ).sensor Real.sqrt ((frontCamera ℝ).position.add
      (((pixel_direction (frontCamera ℝ) (1 / 2) 0).normalise Real.sqrt).scale 1))
        Double3.Zero).2.1 ≤ ((frontCamera ℝ).image_height : ℝ) := by
  obtain ⟨hff, hrr, huu, hfr, hfu, hru⟩ :=
    Camera.create_orthonormal isSqrt_real create_frontCamera
  obtain ⟨hsc, har, -⟩ := Camera.create_sensor_area_pos create_frontCamera
    (by norm_num) (by decide) (by decide)
  obtain ⟨hc, hx, hy⟩ := project_pixel_direction isSqrt_real (frontCamera ℝ) (1 / 2) 0 1
    hff hrr huu hfr hfu hru hsc har one_pos
  have hy' : |(frontCamera ℝ).sensor_y Real.sqrt ((frontCamera ℝ).position.add
      (((pixel_direction (frontCamera ℝ) (1 / 2) 0).normalise Real.sqrt).scale 1))| ≤ 1 / 2 := by
    rw [hy]; norm_num
  have h := sensor_pixel_bounds Real.sqrt (frontCamera ℝ) ((frontCamera ℝ).position.add
      (((pixel_direction (frontCamera ℝ) (1 / 2) 0).normalise Real.sqrt).scale 1)) Double3.Zero
  obtain ⟨hv, hw⟩ := h.2 hc hx hy'
  exact ⟨hc, hx, hy', hv, hw, (h.1 hv).2.2.2.2.2.2.2⟩

end LensClaims

/-! ## One iteration of the trace loop, case by case -/

namespace Integrator

section StepCases

variable {K : Type} [LinearOrderedField K] {R X : Type}

/-- A ray that hits nothing ends the path: no scattering, no splash. -/
theorem trace_step_miss (sqrt : K → K) (lt : LT K R X) (lens_point : Double3 K)
    (path : Path K) (st : State K R) (hmiss : (lt.scene.intersect path.ray).1 = false) :
    trace_step sqrt lt lens_point path st =
      ({ st with intersections := st.intersections + 1 }, none) := by
  unfold trace_step
  simp only [hmiss, Bool.not_false, if_true]

/-- A hit whose sampled event is `Diffuse`: the connection is attempted, the
throughput is updated with the sampled direction, and the depth cap decides
whether the loop goes round again. -/
theorem trace_step_diffuse (sqrt : K → K) (lt : LT K R X) (lens_point : Double3 K)
    (path : Path K) (st : State K R) (hhit : (lt.scene.intersect path.ray).1 = true)
    (hev : (step_sampled lt path st).event = BxDF.Event.Diffuse) :
    trace_step sqrt lt lens_point path st =
      ({ prng := ((step_material lt path).sample (step_idata lt path)
            BxDF.TraceMode.Importance st.prng).2
         splashes := connect sqrt lt lens_point (step_material lt path) (step_idata lt path)
            path.throughput st.splashes
         intersections := st.intersections + 1
         scatterings := st.scatterings + 1 },
       if (path.depth + 1) % 256 > lt.max_path_length then none
       else some
         { throughput := path.throughput.mul ((step_sampled lt path st).colour.scale
             ((step_sampled lt path st).cos_theta / (step_sampled lt path st).pdf_W *
               lt.ShadingCorrection (step_sampled lt path st).direction
                 (step_idata lt path).from_direction (step_idata lt path)
                 BxDF.TraceMode.Importance))
           ray := ⟨(step_idata lt path).point, (step_sampled lt path st).direction,
             some lt.EPSILON_RAY⟩
           depth := (path.depth + 1) % 256 }) := by
  simp only [step_sampled, step_material, step_idata] at hev ⊢
  unfold trace_step
  simp only [hhit, Bool.not_true, Bool.false_eq_true, if_false, hev, scatter]
  split <;> rfl

/-- A hit whose sampled event is `Reflect`: no connection, the throughput is
multiplied by the colour and the shading correction. -/
theorem trace_step_reflect (sqrt : K → K) (lt : LT K R X) (lens_point : Double3 K)
    (path : Path K) (st : State K R) (hhit : (lt.scene.intersect path.ray).1 = true)
    (hev : (step_sampled lt path st).event = BxDF.Event.Reflect) :
    trace_step sqrt lt lens_point path st =
      ({ prng := ((step_material lt path).sample (step_idata lt path)
            BxDF.TraceMode.Importance st.prng).2
         splashes := st.splashes
         intersections := st.intersections + 1
         scatterings := st.scatterings + 1 },
       if (path.depth + 1) % 256 > lt.max_path_length then none
       else some
         { throughput := path.throughput.mul ((step_sampled lt path st).colour.scale
             (lt.ShadingCorrection (step_sampled lt path st).direction
               (step_idata lt path).from_direction (step_idata lt path)
               BxDF.TraceMode.Importance))
           ray := ⟨(step_idata lt path).point, (step_sampled lt path st).direction,
             some lt.EPSILON_RAY⟩
           depth := (path.depth + 1) % 256 }) := by
  simp only [step_sampled, step_material, step_idata] at hev ⊢
  unfold trace_step
  simp only [hhit, Bool.not_true, Bool.false_eq_true, if_false, hev, scatter]
  split <;> rfl

/-- A hit whose sampled event is neither `Diffuse` nor `Reflect` ends the path
without a splash. -/
theorem trace_step_end (sqrt : K → K) (lt : LT K R X) (lens_point : Double3 K)
    (path : Path K) (st : State K R) (hhit : (lt.scene.intersect path.ray).1 = true)
    (hd : (step_sampled lt path st).event ≠ BxDF.Event.Diffuse)
    (hr : (step_sampled lt path st).event ≠ BxDF.Event.Reflect) :
    trace_step sqrt lt lens_point path st =
      ({ prng := ((step_material lt path).sample (step_idata lt path)
            BxDF.TraceMode.Importance st.prng).2
         splashes := st.splashes
         intersections := st.intersections + 1
         scatterings := st.scatterings + 1 }, none) := by
  simp only [step_sampled, step_material, step_idata] at hd hr ⊢
  unfold trace_step
  simp only [hhit, Bool.not_true, Bool.false_eq_true, if_false, scatter]

end StepCases

end Integrator

namespace Integrator

section ConnectionLemmas

variable {K : Type} [LinearOrderedField K] {R X : Type}

/-- The connection adds its splash, if any, in front of the splashes already
received. -/
theorem connect_append (sqrt : K → K) (lt : LT K R X) (lens_point : Double3 K)
    (p_material : BxDF.Polymorphic K R X) (idata : Interaction K X)
    (throughput : Colour K) (splashes : List (Splash K)) :
    connect sqrt lt lens_point p_material idata throughput splashes =
      connect sqrt lt lens_point p_material idata throughput [] ++ splashes := by
  rw [connect_eq, connect_eq]
  split
  · split
    · rfl
    · rfl
  · rfl

/-- The connection makes at most one splash. -/
theorem connect_length_le (sqrt : K → K) (lt : LT K R X) (lens_point : Double3 K)
    (p_material : BxDF.Polymorphic K R X) (idata : Interaction K X)
    (throughput : Colour K) :
    (connect sqrt lt lens_point p_material idata throughput []).length ≤ 1 := by
  rw [connect_eq]
  split
  · split
    · exact le_rfl
    · exact Nat.zero_le _
  · exact Nat.zero_le _

/-- The three cases of the connection. -/
theorem connect_cases (sqrt : K → K) (lt : LT K R X) (lens_point : Double3 K)
    (p_material : BxDF.Polymorphic K R X) (idata : Interaction K X)
    (throughput : Colour K) (splashes : List (Splash K)) :
    ((lt.camera.sensor sqrt idata.point lens_point).2.2 = false →
      connect sqrt lt lens_point p_material idata throughput splashes = splashes) ∧
    ((lt.camera.sensor sqrt idata.point lens_point).2.2 = true →
      lt.scene.occluded (connection_ray sqrt lt lens_point idata)
        (evaluate_distance sqrt lens_point idata - 2 * lt.EPSILON_RAY) = true →
      connect sqrt lt lens_point p_material idata throughput splashes = splashes) ∧
    ((lt.camera.sensor sqrt idata.point lens_point).2.2 = true →
      lt.scene.occluded (connection_ray sqrt lt lens_point idata)
        (evaluate_distance sqrt lens_point idata - 2 * lt.EPSILON_RAY) = false →
      connect sqrt lt lens_point p_material idata throughput splashes =
        { x := (lt.camera.sensor sqrt idata.point lens_point).1
          y := (lt.camera.sensor sqrt idata.point lens_point).2.1
          colour := splash_value sqrt lt lens_point p_material idata throughput } ::
          splashes) := by
  refine ⟨?_, ?_, ?_⟩
  · intro hv
    rw [connect_eq]
    simp only [hv, Bool.false_eq_true, if_false]
  · intro hv ho
    rw [connect_eq]
    simp only [hv, ho, Bool.not_true, Bool.false_eq_true, if_true, if_false]
  · intro hv ho
    rw [connect_eq]
    simp only [hv, ho, Bool.not_false, if_true]

end ConnectionLemmas

end Integrator

/-! ## Claims about the vertices of a path -/

section VertexClaims

open Integrator

variable {K : Type} [LinearOrderedField K] {R X : Type}

/-- C12. The camera connection never influences the rest of the path.  At a
`Diffuse` vertex the throughput after the vertex is
`throughput * bxdf_colour * (cos_sampled / pdf_sampled) *
shading_correction(sampled_direction, incoming, interaction, Importance)`, and the
loop either stops at the depth cap or continues with the ray from the hit point
along the sampled direction; neither depends on whether the projection was
invalid, the connection occluded, or the splash made. -/
theorem connection_leaves_path_unchanged (sqrt : K → K) (lt : LT K R X)
    (lens_point : Double3 K) (path : Path K) (st : State K R)
    (hhit : (lt.scene.intersect path.ray).1 = true)
    (hev : (step_sampled lt path st).event = BxDF.Event.Diffuse) :
    scatter lt (step_idata lt path) (step_sampled lt path st) path.throughput =
      some (((path.throughput.mul (step_sampled lt path st).colour).scale
        ((step_sampled lt path st).cos_theta / (step_sampled lt path st).pdf_W)).scale
        (lt.ShadingCorrection (step_sampled lt path st).direction
          (step_idata lt path).from_direction (step_idata lt path)
          BxDF.TraceMode.Importance)) ∧
    (trace_step sqrt lt lens_point path st).2 =
      (if (path.depth + 1) % 256 > lt.max_path_length then none
       else some
         { throughput := ((path.throughput.mul (step_sampled lt path st).colour).scale
             ((step_sampled lt path st).cos_theta / (step_sampled lt path st).pdf_W)).scale
             (lt.ShadingCorrection (step_sampled lt path st).direction
               (step_idata lt path).from_direction (step_idata lt path)
               BxDF.TraceMode.Importance)
           ray := ⟨(step_idata lt path).point, (step_sampled lt path st).direction,
             some lt.EPSILON_RAY⟩
           depth := (path.depth + 1) % 256 }) ∧
    (trace_step sqrt lt lens_point path st).1.prng =
      ((step_material lt path).sample (step_idata lt path)
        BxDF.TraceMode.Importance st.prng).2 ∧
    ((lt.camera.sensor sqrt (step_idata lt path).point lens_point).2.2 = false →
      (trace_step sqrt lt lens_point path st).1.splashes = st.splashes) ∧
    ((lt.camera.sensor sqrt (step_idata lt path).point lens_point).2.2 = true →
      lt.scene.occluded (connection_ray sqrt lt lens_point (step_idata lt path))
        (evaluate_distance sqrt lens_point (step_idata lt path) - 2 * lt.EPSILON_RAY) = true →
      (trace_step sqrt lt lens_point path st).1.splashes = st.splashes) ∧
    ((lt.camera.sensor sqrt (step_idata lt path).point lens_point).2.2 = true →
      lt.scene.occluded (connection_ray sqrt lt lens_point (step_idata lt path))
        (evaluate_distance sqrt lens_point (step_idata lt path) - 2 * lt.EPSILON_RAY) = false →
      (trace_step sqrt lt lens_point path st).1.splashes =
        { x := (lt.camera.sensor sqrt (step_idata lt path).point lens_point).1
          y := (lt.camera.sensor sqrt (step_idata lt path).point lens_point).2.1
          colour := splash_value sqrt lt lens_point (step_material lt path)
            (step_idata lt path) path.throughput } :: st.splashes) := by
  have hcol : path.throughput.mul ((step_sampled lt path st).colour.scale
      ((step_sampled lt path st).cos_theta / (step_sampled lt path st).pdf_W *
        lt.ShadingCorrection (step_sampled lt path st).direction
          (step_idata lt path).from_direction (step_idata lt path)
          BxDF.TraceMode.Importance)) =
      ((path.throughput.mul (step_sampled lt path st).colour).scale
        ((step_sampled lt path st).cos_theta / (step_sampled lt path st).pdf_W)).scale
        (lt.ShadingCorrection (step_sampled lt path st).direction
          (step_idata lt path).from_direction (step_idata lt path)
          BxDF.TraceMode.Importance) := by
    simp only [Colour.mul, Colour.scale]
    congr 1 <;> ring
  obtain ⟨c1, c2, c3⟩ := connect_cases sqrt lt lens_point (step_material lt path)
    (step_idata lt path) path.throughput st.splashes
  rw [trace_step_diffuse sqrt lt lens_point path st hhit hev, hcol]
  refine ⟨?_, rfl, rfl, c1, c2, c3⟩
  rw [← hcol]
  unfold scatter
  simp only [hev]

end VertexClaims

/-! ## The wall scene seen by the scenario camera -/

section WallScene

open Integrator

theorem magnitude_axis_real {d : ℝ} (hd : 0 < d) :
    ((⟨0, d, 0⟩ : Double3 ℝ).sub Double3.Zero).magnitude Real.sqrt = d := by
  rw [sub_zero_vec]
  unfold Double3.magnitude
  apply isSqrt_real.eq_of_mul_self hd.le
  simp [Double3.dot]

theorem normalise_axis_real {d : ℝ} (hd : 0 < d) :
    ((⟨0, d, 0⟩ : Double3 ℝ).sub Double3.Zero).normalise Real.sqrt = Double3.Y := by
  unfold Double3.normalise
  rw [magnitude_axis_real hd, sub_zero_vec]
  simp [Double3.divide, Double3.Y, hd.ne']

/-- The scenario camera accepts every point `(0, d, 0)`, `d > 0`, at the image
coordinates `(2, 1)` with density `625/162`. -/
theorem frontCamera_axis {d : ℝ} (hd : 0 < d) (lens_point : Double3 ℝ) :
    (frontCamera ℝ).sensor Real.sqrt ⟨0, d, 0⟩ lens_point = (2, 1, true) ∧
    (frontCamera ℝ).pdf Real.sqrt ⟨0, d, 0⟩ lens_point = 625 / 162 := by
  obtain ⟨h1, h2, h3⟩ := forward_axis_point isSqrt_real (L := 1) (d := d) one_pos hd
    create_frontCamera
  have hv : ((frontCamera ℝ).sensor Real.sqrt ⟨0, d, 0⟩ lens_point).2.2 = true := by
    rw [Camera.sensor_valid_iff, h1, h2, h3]; norm_num
  constructor
  · rw [Camera.sensor_eq, h1, h2, h3]
    simp only [frontCamera]
    norm_num
  · rw [Camera.pdf_of_valid _ _ _ _ hv, h1]
    simp only [frontCamera]
    norm_num

/-- The first loop variables of a path in the wall scene. -/
theorem wall_emission_start (n : Nat) :
    emission_start (wallLT ℝ n) () =
      ({ throughput := ⟨1, 1, 1⟩, ray := ⟨⟨0, 2, -1⟩, Double3.Z, some (1 / 1000)⟩, depth := 1 },
        Double3.Zero, ()) := by
  simp [emission_start, wallLT, LT.create, wallScene, frontCamera, Camera.sample_lens,
    Colour.divide]

/-- The connection made at the wall: one splash at `(2, 1)` of colour
`625/648` per channel. -/
theorem wall_connect (n : Nat) (splashes : List (Splash ℝ)) :
    connect Real.sqrt (wallLT ℝ n) Double3.Zero (wallMaterial ℝ) (wallHit ℝ) ⟨1, 1, 1⟩ splashes =
      { x := 2, y := 1, colour := ⟨625 / 648, 625 / 648, 625 / 648⟩ } :: splashes := by
  obtain ⟨hs, hp⟩ := frontCamera_axis (d := 2) two_pos Double3.Zero
  have hn := normalise_axis_real (d := 2) two_pos
  have hm := magnitude_axis_real (d := 2) two_pos
  rw [connect_eq]
  simp only [wallLT, LT.create, wallHit, wallScene, wallMaterial, splash_value,
    evaluate_direction, evaluate_distance, hs, hp, hn, hm, Bool.not_false, if_true,
    Colour.scale, Colour.mul, Colour.divide, Double3.Y]
  norm_num

end WallScene

section SplashValue

open Integrator

variable {K : Type} [LinearOrderedField K] {R X : Type}

/-- The unit vector toward the lens is the opposite of `evaluate_direction`; it is
the direction passed to `material.evaluate`. -/
theorem toward_lens_eq_neg (sqrt : K → K) (lens_point : Double3 K) (idata : Interaction K X) :
    toward_lens sqrt lens_point idata = (evaluate_direction sqrt lens_point idata).neg := by
  have hd : (lens_point.sub idata.point).dot (lens_point.sub idata.point) =
      (idata.point.sub lens_point).dot (idata.point.sub lens_point) := by
    simp only [Double3.dot, Double3.sub]; ring
  simp only [toward_lens, evaluate_direction, Double3.normalise, Double3.magnitude, hd]
  simp only [Double3.divide, Double3.neg, Double3.sub]
  congr 1 <;> ring

/-- At a `Diffuse` vertex whose projection is valid and whose connection is
unoccluded, exactly one splash is made, at the image coordinates returned by
`sensor`, with the value `throughput * ShadingCorrection(evaluate_direction,
incoming, interaction, Importance) * evaluated_colour * evaluated_cos_theta *
camera.pdf(hit_point, lens_point) / distance^2`; the shading correction receives
`evaluate_direction`, the unit vector from the lens point to the hit point, while
the material is evaluated at its opposite. -/
theorem diffuse_splash (sqrt : K → K) (lt : LT K R X) (lens_point : Double3 K)
    (path : Path K) (st : State K R)
    (hhit : (lt.scene.intersect path.ray).1 = true)
    (hev : (step_sampled lt path st).event = BxDF.Event.Diffuse)
    (hv : (lt.camera.sensor sqrt (step_idata lt path).point lens_point).2.2 = true)
    (ho : lt.scene.occluded (connection_ray sqrt lt lens_point (step_idata lt path))
      (evaluate_distance sqrt lens_point (step_idata lt path) - 2 * lt.EPSILON_RAY) = false) :
    (trace_step sqrt lt lens_point path st).1.splashes =
      { x := (lt.camera.sensor sqrt (step_idata lt path).point lens_point).1
        y := (lt.camera.sensor sqrt (step_idata lt path).point lens_point).2.1
        colour := splash_value sqrt lt lens_point (step_material lt path)
          (step_idata lt path) path.throughput } :: st.splashes := by
  rw [trace_step_diffuse sqrt lt lens_point path st hhit hev]
  exact (connect_cases sqrt lt lens_point (step_material lt path) (step_idata lt path)
    path.throughput st.splashes).2.2 hv ho

/-- The value computed by the code agrees with the formula of the specification
whenever the shading correction takes the same value at `evaluate_direction` and
at its opposite. -/
theorem splash_value_eq_spec_of_even (sqrt : K → K) (lt : LT K R X) (lens_point : Double3 K)
    (p_material : BxDF.Polymorphic K R X) (idata : Interaction K X) (throughput : Colour K)
    (heven : lt.ShadingCorrection (evaluate_direction sqrt lens_point idata).neg
        idata.from_direction idata BxDF.TraceMode.Importance =
      lt.ShadingCorrection (evaluate_direction sqrt lens_point idata)
        idata.from_direction idata BxDF.TraceMode.Importance) :
    splash_value sqrt lt lens_point p_material idata throughput =
      spec_splash_value sqrt lt lens_point p_material idata throughput := by
  unfold splash_value spec_splash_value
  rw [toward_lens_eq_neg, heven]
  rfl

/-- C11, evaluated in the wall scene (a diffuse wall at `(0, 2, 0)` seen by the
scenario camera, unoccluded) with a shading correction that returns the `y`
component of its first argument.  The path makes one splash at `(2, 1)` whose
value is `625/648` per channel: the code passes `evaluate_direction = (0, 1, 0)`,
the direction from the lens to the hit point, to `ShadingCorrection`.  The formula
of the claim, with the direction toward the lens `(0, -1, 0)` that is passed to
`material.evaluate`, gives `-625/648`. -/
theorem splash_shading_correction_direction :
    trace_emission_path Real.sqrt (wallLT ℝ 1) 1 ⟨(), [], 0, 0⟩ =
      some ⟨(), [{ x := 2, y := 1, colour := ⟨625 / 648, 625 / 648, 625 / 648⟩ }], 1, 1⟩ ∧
    evaluate_direction Real.sqrt Double3.Zero (wallHit ℝ) = ⟨0, 1, 0⟩ ∧
    toward_lens Real.sqrt Double3.Zero (wallHit ℝ) = ⟨0, -1, 0⟩ ∧
    splash_value Real.sqrt (wallLT ℝ 1) Double3.Zero (wallMaterial ℝ) (wallHit ℝ) ⟨1, 1, 1⟩ =
      ⟨625 / 648, 625 / 648, 625 / 648⟩ ∧
    spec_splash_value Real.sqrt (wallLT ℝ 1) Double3.Zero (wallMaterial ℝ) (wallHit ℝ)
      ⟨1, 1, 1⟩ = ⟨-(625 / 648), -(625 / 648), -(625 / 648)⟩ := by
  have hed : evaluate_direction Real.sqrt Double3.Zero (wallHit ℝ) = ⟨0, 1, 0⟩ :=
    normalise_axis_real (d := 2) two_pos
  have htl : toward_lens Real.sqrt Double3.Zero (wallHit ℝ) = ⟨0, -1, 0⟩ := by
    rw [toward_lens_eq_neg, hed]; simp [Double3.neg]
  have hp := (frontCamera_axis (d := 2) two_pos Double3.Zero).2
  have hm := magnitude_axis_real (d := 2) two_pos
  have hc := wall_connect 1 []
  rw [connect_eq] at hc
  have hsv : splash_value Real.sqrt (wallLT ℝ 1) Double3.Zero (wallMaterial ℝ) (wallHit ℝ)
      ⟨1, 1, 1⟩ = ⟨625 / 648, 625 / 648, 625 / 648⟩ := by
    split at hc
    · split at hc
      · have := congrArg (fun l => (List.head? l).map Splash.colour) hc
        simpa using this
      · cases hc
    · cases hc
  refine ⟨?_, hed, htl, hsv, ?_⟩
  · rw [trace_emission_path_eq, wall_emission_start]
    unfold trace_loop
    rw [trace_step_diffuse Real.sqrt (wallLT ℝ 1) Double3.Zero
      { throughput := ⟨1, 1, 1⟩, ray := ⟨⟨0, 2, -1⟩, Double3.Z, some (1 / 1000)⟩, depth := 1 }
      { prng := (), splashes := [], intersections := 0, scatterings := 0 } rfl rfl]
    have hi : step_idata (wallLT ℝ 1)
        { throughput := ⟨1, 1, 1⟩, ray := ⟨⟨0, 2, -1⟩, Double3.Z, some (1 / 1000)⟩, depth := 1 }
        = wallHit ℝ := rfl
    have hmat : step_material (wallLT ℝ 1)
        { throughput := ⟨1, 1, 1⟩, ray := ⟨⟨0, 2, -1⟩, Double3.Z, some (1 / 1000)⟩, depth := 1 }
        = wallMaterial ℝ := rfl
    have hcap : (1 + 1) % 256 > (wallLT ℝ 1).max_path_length := by decide
    simp only [hi, hmat, hcap, if_true, wall_connect]
  · unfold spec_splash_value
    rw [htl]
    simp only [wallLT, LT.create, wallHit, wallMaterial, hp, Colour.scale, Colour.mul,
      Colour.divide]
    have hm' : ((⟨0, 2, 0⟩ : Double3 ℝ).sub Double3.Zero).magnitude Real.sqrt = 2 := hm
    rw [hm']
    norm_num

end SplashValue

section VertexWitnesses

open Integrator

/-- C12, at the first vertex of a path in the wall scene with
`max_path_length = 3`: the loop continues from the hit point `(0, 2, 0)` along the
sampled direction with throughput `(1, 2/3, 2/5)`. -/
theorem connection_leaves_path_unchanged_witness :
    ((wallLT ℝ 3).scene.intersect (emission_start (wallLT ℝ 3) ()).1.ray).1 = true ∧
    (step_sampled (wallLT ℝ 3) (emission_start (wallLT ℝ 3) ()).1 ⟨(), [], 0, 0⟩).event =
      BxDF.Event.Diffuse ∧
    (trace_step Real.sqrt (wallLT ℝ 3) Double3.Zero (emission_start (wallLT ℝ 3) ()).1
        ⟨(), [], 0, 0⟩).2 =
      some { throughput := ⟨1, 2 / 3, 2 / 5⟩
             ray := ⟨⟨0, 2, 0⟩, Double3.Y, some (1 / 1000)⟩
             depth := 2 } := by
  have h := (connection_leaves_path_unchanged Real.sqrt (wallLT ℝ 3) Double3.Zero
    (emission_start (wallLT ℝ 3) ()).1 ⟨(), [], 0, 0⟩ rfl rfl).2.1
  refine ⟨rfl, rfl, ?_⟩
  rw [h, wall_emission_start]
  have hcap : ¬ (1 + 1) % 256 > (wallLT ℝ 3).max_path_length := by decide
  simp only [hcap, if_false]
  simp only [step_sampled, step_material, step_idata, wallLT, LT.create, wallScene,
    wallMaterial, Colour.mul, Colour.scale, Double3.Y]
  norm_num

end VertexWitnesses

namespace Integrator

section SplashCount

variable {K : Type} [LinearOrderedField K] {R X : Type}

/-- The splashes made by one iteration: at most one, placed in front of the
earlier ones, and only at a hit whose sampled event is `Diffuse`; the scattering
counter grows at least as much as the splash list. -/
theorem trace_step_splashes (sqrt : K → K) (lt : LT K R X) (lens_point : Double3 K)
    (path : Path K) (st : State K R) :
    ∃ d : List (Splash K),
      (trace_step sqrt lt lens_point path st).1.splashes = d ++ st.splashes ∧
      d.length ≤ 1 ∧
      d.length + st.scatterings ≤ (trace_step sqrt lt lens_point path st).1.scatterings ∧
      (d ≠ [] → (lt.scene.intersect path.ray).1 = true ∧
        (step_sampled lt path st).event = BxDF.Event.Diffuse) := by
  by_cases hhit : (lt.scene.intersect path.ray).1 = true
  · by_cases hd : (step_sampled lt path st).event = BxDF.Event.Diffuse
    · refine ⟨connect sqrt lt lens_point (step_material lt path) (step_idata lt path)
        path.throughput [], ?_, connect_length_le _ _ _ _ _ _, ?_, fun _ => ⟨hhit, hd⟩⟩
      · rw [trace_step_diffuse sqrt lt lens_point path st hhit hd]
        exact connect_append _ _ _ _ _ _ _
      · rw [trace_step_diffuse sqrt lt lens_point path st hhit hd]
        have := connect_length_le sqrt lt lens_point (step_material lt path)
          (step_idata lt path) path.throughput
        simp only
        omega
    · by_cases hr : (step_sampled lt path st).event = BxDF.Event.Reflect
      · refine ⟨[], ?_, Nat.zero_le _, ?_, fun h => absurd rfl h⟩
        · rw [trace_step_reflect sqrt lt lens_point path st hhit hr]; rfl
        · rw [trace_step_reflect sqrt lt lens_point path st hhit hr]
          simp only [List.length_nil]
          omega
      · refine ⟨[], ?_, Nat.zero_le _, ?_, fun h => absurd rfl h⟩
        · rw [trace_step_end sqrt lt lens_point path st hhit hd hr]; rfl
        · rw [trace_step_end sqrt lt lens_point path st hhit hd hr]
          simp only [List.length_nil]
          omega
  · have hmiss : (lt.scene.intersect path.ray).1 = false := by simpa using hhit
    refine ⟨[], ?_, Nat.zero_le _, ?_, fun h => absurd rfl h⟩
    · rw [trace_step_miss sqrt lt lens_point path st hmiss]; rfl
    · rw [trace_step_miss sqrt lt lens_point path st hmiss]
      simp only [List.length_nil]
      omega

/-- Along a whole path the number of splashes made does not exceed the number of
scattering events. -/
theorem trace_loop_splashes (sqrt : K → K) (lt : LT K R X) (lens_point : Double3 K) :
    ∀ (fuel : Nat) (path : Path K) (st r : State K R),
      trace_loop sqrt lt lens_point fuel path st = some r →
      ∃ d : List (Splash K), r.splashes = d ++ st.splashes ∧
        d.length + st.scatterings ≤ r.scatterings := by
  intro fuel
  induction fuel with
  | zero => intro path st r h; cases h
  | succ n ih =>
    intro path st r h
    obtain ⟨d, h1, -, h3, -⟩ := trace_step_splashes sqrt lt lens_point path st
    unfold trace_loop at h
    rcases hstep : trace_step sqrt lt lens_point path st with ⟨st1, _ | next⟩
    · rw [hstep] at h h1 h3
      simp only [Option.some.injEq] at h
      subst h
      exact ⟨d, h1, h3⟩
    · rw [hstep] at h h1 h3
      obtain ⟨d2, e1, e2⟩ := ih next st1 r h
      refine ⟨d2 ++ d, ?_, ?_⟩
      · rw [e1, h1, List.append_assoc]
      · simp only at h3
        rw [List.length_append]
        omega

end SplashCount

end Integrator

section EventClaims

open Integrator

variable {K : Type} [LinearOrderedField K] {R X : Type}

/-- C13. Sensor contributions are made only at `Diffuse` vertices.  One loop
iteration makes at most one splash, and none unless the ray hits and the sampled
event is `Diffuse`; along a path the splashes do not outnumber the scattering
events.  A `Reflect` vertex makes no splash and multiplies the throughput by
`bxdf_colour * shading_correction(sampled_direction, incoming, interaction,
Importance)`.  A `None`, `Emission` or unrecognised event ends the path with no
splash at that vertex: the loop returns at once. -/
theorem splashes_only_at_diffuse (sqrt : K → K) (lt : LT K R X) (lens_point : Double3 K)
    (path : Path K) (st : State K R) :
    ((trace_step sqrt lt lens_point path st).1.splashes = st.splashes ∨
      ∃ s, (trace_step sqrt lt lens_point path st).1.splashes = s :: st.splashes) ∧
    (((lt.scene.intersect path.ray).1 = false ∨
        (step_sampled lt path st).event ≠ BxDF.Event.Diffuse) →
      (trace_step sqrt lt lens_point path st).1.splashes = st.splashes) ∧
    (∀ (fuel : Nat) (r : State K R), trace_loop sqrt lt lens_point fuel path st = some r →
      ∃ d : List (Splash K), r.splashes = d ++ st.splashes ∧
        d.length + st.scatterings ≤ r.scatterings) ∧
    ((lt.scene.intersect path.ray).1 = true →
      (step_sampled lt path st).event = BxDF.Event.Reflect →
      (trace_step sqrt lt lens_point path st).1.splashes = st.splashes ∧
      scatter lt (step_idata lt path) (step_sampled lt path st) path.throughput =
        some ((path.throughput.mul (step_sampled lt path st).colour).scale
          (lt.ShadingCorrection (step_sampled lt path st).direction
            (step_idata lt path).from_direction (step_idata lt path)
            BxDF.TraceMode.Importance)) ∧
      (trace_step sqrt lt lens_point path st).2 =
        (if (path.depth + 1) % 256 > lt.max_path_length then none
         else some
           { throughput := (path.throughput.mul (step_sampled lt path st).colour).scale
               (lt.ShadingCorrection (step_sampled lt path st).direction
                 (step_idata lt path).from_direction (step_idata lt path)
                 BxDF.TraceMode.Importance)
             ray := ⟨(step_idata lt path).point, (step_sampled lt path st).direction,
               some lt.EPSILON_RAY⟩
             depth := (path.depth + 1) % 256 })) ∧
    ((lt.scene.intersect path.ray).1 = true →
      ((step_sampled lt path st).event = BxDF.Event.None ∨
        (step_sampled lt path st).event = BxDF.Event.Emission ∨
        (step_sampled lt path st).event = BxDF.Event.Other) →
      (trace_step sqrt lt lens_point path st).2 = none ∧
      (trace_step sqrt lt lens_point path st).1.splashes = st.splashes ∧
      ∀ fuel : Nat, ∃ r, trace_loop sqrt lt lens_point (fuel + 1) path st = some r ∧
        r.splashes = st.splashes) := by
  obtain ⟨d, h1, h2, -, h4⟩ := trace_step_splashes sqrt lt lens_point path st
  refine ⟨?_, ?_, ?_, ?_, ?_⟩
  · rw [h1]
    match d, h2 with
    | [], _ => exact Or.inl rfl
    | [s], _ => exact Or.inr ⟨s, rfl⟩
    | _ :: _ :: _, h => simp at h
  · intro h
    have hd : d = [] := by
      by_contra hne
      obtain ⟨a, b⟩ := h4 hne
      rcases h with h | h
      · rw [a] at h; cases h
      · exact h b
    rw [h1, hd]; rfl
  · intro fuel r h
    exact trace_loop_splashes sqrt lt lens_point fuel path st r h
  · intro hhit hr
    have hcol : path.throughput.mul ((step_sampled lt path st).colour.scale
        (lt.ShadingCorrection (step_sampled lt path st).direction
          (step_idata lt path).from_direction (step_idata lt path)
          BxDF.TraceMode.Importance)) =
        (path.throughput.mul (step_sampled lt path st).colour).scale
          (lt.ShadingCorrection (step_sampled lt path st).direction
            (step_idata lt path).from_direction (step_idata lt path)
            BxDF.TraceMode.Importance) := by
      simp only [Colour.mul, Colour.scale]
      congr 1 <;> ring
    rw [trace_step_reflect sqrt lt lens_point path st hhit hr, hcol]
    refine ⟨rfl, ?_, rfl⟩
    rw [← hcol]
    unfold scatter
    simp only [hr]
  · intro hhit he
    have hd : (step_sampled lt path st).event ≠ BxDF.Event.Diffuse := by
      rcases he with h | h | h <;> rw [h] <;> decide
    have hr : (step_sampled lt path st).event ≠ BxDF.Event.Reflect := by
      rcases he with h | h | h <;> rw [h] <;> decide
    have hstep := trace_step_end sqrt lt lens_point path st hhit hd hr
    refine ⟨by rw [hstep], by rw [hstep], ?_⟩
    intro fuel
    refine ⟨(trace_step sqrt lt lens_point path st).1, ?_, by rw [hstep]⟩
    unfold trace_loop
    rw [hstep]

/-- C13, at the first vertex of a path in the mirror scene (a `Reflect` event):
no splash is made and the loop continues with throughput `(1, 1, 1)`. -/
theorem splashes_only_at_diffuse_witness :
    ((mirrorLT ℝ).scene.intersect (emission_start (mirrorLT ℝ) ()).1.ray).1 = true ∧
    (step_sampled (mirrorLT ℝ) (emission_start (mirrorLT ℝ) ()).1 ⟨(), [], 0, 0⟩).event =
      BxDF.Event.Reflect ∧
    (trace_step Real.sqrt (mirrorLT ℝ) Double3.Zero (emission_start (mirrorLT ℝ) ()).1
      ⟨(), [], 0, 0⟩).1.splashes = [] ∧
    scatter (mirrorLT ℝ) (step_idata (mirrorLT ℝ) (emission_start (mirrorLT ℝ) ()).1)
      (step_sampled (mirrorLT ℝ) (emission_start (mirrorLT ℝ) ()).1 ⟨(), [], 0, 0⟩)
      (emission_start (mirrorLT ℝ) ()).1.throughput = some ⟨1, 1, 1⟩ := by
  have h := (splashes_only_at_diffuse Real.sqrt (mirrorLT ℝ) Double3.Zero
    (emission_start (mirrorLT ℝ) ()).1 ⟨(), [], 0, 0⟩).2.2.2.1 rfl rfl
  refine ⟨rfl, rfl, h.1, ?_⟩
  rw [h.2.1]
  simp [emission_start, step_sampled, step_material, step_idata, mirrorLT, LT.create,
    mirrorScene, mirrorMaterial, Colour.mul, Colour.scale, Colour.divide]

end EventClaims

section DepthCap

open Integrator

variable {K : Type} [LinearOrderedField K] {R X : Type}

/-- C15. Depth-cap placement.  With `max_path_length = 1`, `trace_emission_path`
returns after exactly one iteration of its loop, for every scene: `scene.intersect`
is queried exactly once and no next ray is built, because the cap is tested after
the event switch.  If the emitted ray hits nothing there is no scattering event
and no splash; if the hit samples a `Diffuse` event with a valid, unoccluded
projection, exactly one splash is made. -/
theorem depth_cap_placement (sqrt : K → K) (lt : LT K R X) (hN : lt.max_path_length = 1)
    (fuel : Nat) (hf : 1 ≤ fuel) (st : State K R) :
    trace_emission_path sqrt lt fuel st =
      some (trace_step sqrt lt (emission_start lt st.prng).2.1 (emission_start lt st.prng).1
        { st with prng := (emission_start lt st.prng).2.2 }).1 ∧
    (trace_step sqrt lt (emission_start lt st.prng).2.1 (emission_start lt st.prng).1
      { st with prng := (emission_start lt st.prng).2.2 }).2 = none ∧
    (trace_step sqrt lt (emission_start lt st.prng).2.1 (emission_start lt st.prng).1
      { st with prng := (emission_start lt st.prng).2.2 }).1.intersections =
        st.intersections + 1 ∧
    ((lt.scene.intersect (emission_start lt st.prng).1.ray).1 = false →
      (trace_step sqrt lt (emission_start lt st.prng).2.1 (emission_start lt st.prng).1
        { st with prng := (emission_start lt st.prng).2.2 }).1.scatterings = st.scatterings ∧
      (trace_step sqrt lt (emission_start lt st.prng).2.1 (emission_start lt st.prng).1
        { st with prng := (emission_start lt st.prng).2.2 }).1.splashes = st.splashes) ∧
    ((lt.scene.intersect (emission_start lt st.prng).1.ray).1 = true →
      (step_sampled lt (emission_start lt st.prng).1
        { st with prng := (emission_start lt st.prng).2.2 }).event = BxDF.Event.Diffuse →
      (lt.camera.sensor sqrt (step_idata lt (emission_start lt st.prng).1).point
        (emission_start lt st.prng).2.1).2.2 = true →
      lt.scene.occluded
        (connection_ray sqrt lt (emission_start lt st.prng).2.1
          (step_idata lt (emission_start lt st.prng).1))
        (evaluate_distance sqrt (emission_start lt st.prng).2.1
          (step_idata lt (emission_start lt st.prng).1) - 2 * lt.EPSILON_RAY) = false →
      (trace_step sqrt lt (emission_start lt st.prng).2.1 (emission_start lt st.prng).1
        { st with prng := (emission_start lt st.prng).2.2 }).1.scatterings =
          st.scatterings + 1 ∧
      (trace_step sqrt lt (emission_start lt st.prng).2.1 (emission_start lt st.prng).1
        { st with prng := (emission_start lt st.prng).2.2 }).1.splashes =
        { x := (lt.camera.sensor sqrt (step_idata lt (emission_start lt st.prng).1).point
            (emission_start lt st.prng).2.1).1
          y := (lt.camera.sensor sqrt (step_idata lt (emission_start lt st.prng).1).point
            (emission_start lt st.prng).2.1).2.1
          colour := splash_value sqrt lt (emission_start lt st.prng).2.1
            (step_material lt (emission_start lt st.prng).1)
            (step_idata lt (emission_start lt st.prng).1)
            (emission_start lt st.prng).1.throughput } :: st.splashes) := by
  obtain ⟨h1, -, -, h4⟩ := trace_step_spec sqrt lt (emission_start lt st.prng).2.1
    (emission_start lt st.prng).1 { st with prng := (emission_start lt st.prng).2.2 }
  have hdepth : (emission_start lt st.prng).1.depth = 1 := rfl
  have hnone : (trace_step sqrt lt (emission_start lt st.prng).2.1 (emission_start lt st.prng).1
      { st with prng := (emission_start lt st.prng).2.2 }).2 = none := by
    rcases hn : (trace_step sqrt lt (emission_start lt st.prng).2.1
      (emission_start lt st.prng).1 { st with prng := (emission_start lt st.prng).2.2 }).2
      with _ | next
    · rfl
    · exfalso
      obtain ⟨e1, e2⟩ := h4 next hn
      rw [hdepth] at e1
      rw [hN] at e2
      omega
  refine ⟨?_, hnone, h1, ?_, ?_⟩
  · obtain ⟨n, rfl⟩ : ∃ n, fuel = n + 1 := ⟨fuel - 1, by omega⟩
    rw [trace_emission_path_eq]
    unfold trace_loop
    rcases hstep : trace_step sqrt lt (emission_start lt st.prng).2.1
      (emission_start lt st.prng).1 { st with prng := (emission_start lt st.prng).2.2 }
      with ⟨st1, _ | next⟩
    · rfl
    · rw [hstep] at hnone; cases hnone
  · intro hmiss
    rw [trace_step_miss sqrt lt _ _ _ hmiss]
    exact ⟨rfl, rfl⟩
  · intro hhit hev hv ho
    have hs := diffuse_splash sqrt lt _ _ _ hhit hev hv ho
    refine ⟨?_, hs⟩
    rw [trace_step_diffuse sqrt lt _ _ _ hhit hev]

/-- C15, in the wall scene with `max_path_length = 1`: the path returns after one
intersection query and one scattering event. -/
theorem depth_cap_placement_witness :
    (wallLT ℝ 1).max_path_length = 1 ∧ 1 ≤ 1 ∧
    trace_emission_path Real.sqrt (wallLT ℝ 1) 1 ⟨(), [], 0, 0⟩ =
      some (trace_step Real.sqrt (wallLT ℝ 1) (emission_start (wallLT ℝ 1) ()).2.1
        (emission_start (wallLT ℝ 1) ()).1 ⟨(), [], 0, 0⟩).1 ∧
    (trace_step Real.sqrt (wallLT ℝ 1) (emission_start (wallLT ℝ 1) ()).2.1
      (emission_start (wallLT ℝ 1) ()).1 ⟨(), [], 0, 0⟩).1.intersections = 0 + 1 ∧
    (trace_step Real.sqrt (wallLT ℝ 1) (emission_start (wallLT ℝ 1) ()).2.1
      (emission_start (wallLT ℝ 1) ()).1 ⟨(), [], 0, 0⟩).2 = none := by
  have h := depth_cap_placement Real.sqrt (wallLT ℝ 1) rfl 1 le_rfl ⟨(), [], 0, 0⟩
  exact ⟨rfl, le_rfl, h.1, h.2.2.1, h.2.1⟩

end DepthCap

/-! ## Determinism of `process` -/

namespace Integrator

section Frame

variable {K : Type} [LinearOrderedField K] {R X : Type}

/-- One iteration reads the state only through the generator: two states with the
same generator yield the same continuation, the same generator afterwards, and the
same new splashes in front of their respective earlier ones. -/
theorem trace_step_frame (sqrt : K → K) (lt : LT K R X) (lens_point : Double3 K)
    (path : Path K) (st st' : State K R) (hp : st.prng = st'.prng) :
    (trace_step sqrt lt lens_point path st).2 = (trace_step sqrt lt lens_point path st').2 ∧
    (trace_step sqrt lt lens_point path st).1.prng =
      (trace_step sqrt lt lens_point path st').1.prng ∧
    ∃ d : List (Splash K),
      (trace_step sqrt lt lens_point path st).1.splashes = d ++ st.splashes ∧
      (trace_step sqrt lt lens_point path st').1.splashes = d ++ st'.splashes := by
  have hs : step_sampled lt path st' = step_sampled lt path st := by
    unfold step_sampled; rw [hp]
  by_cases hhit : (lt.scene.intersect path.ray).1 = true
  · by_cases hd : (step_sampled lt path st).event = BxDF.Event.Diffuse
    · rw [trace_step_diffuse sqrt lt lens_point path st hhit hd,
        trace_step_diffuse sqrt lt lens_point path st' hhit (by rw [hs]; exact hd), hs, hp]
      exact ⟨rfl, rfl, _, connect_append _ _ _ _ _ _ _, connect_append _ _ _ _ _ _ _⟩
    · by_cases hr : (step_sampled lt path st).event = BxDF.Event.Reflect
      · rw [trace_step_reflect sqrt lt lens_point path st hhit hr,
          trace_step_reflect sqrt lt lens_point path st' hhit (by rw [hs]; exact hr), hs, hp]
        exact ⟨rfl, rfl, [], rfl, rfl⟩
      · rw [trace_step_end sqrt lt lens_point path st hhit hd hr,
          trace_step_end sqrt lt lens_point path st' hhit (by rw [hs]; exact hd)
            (by rw [hs]; exact hr), hp]
        exact ⟨rfl, rfl, [], rfl, rfl⟩
  · have hmiss : (lt.scene.intersect path.ray).1 = false := by simpa using hhit
    rw [trace_step_miss sqrt lt lens_point path st hmiss,
      trace_step_miss sqrt lt lens_point path st' hmiss]
    exact ⟨rfl, hp, [], rfl, rfl⟩

/-- The relation between two runs started with the same generator: both run out
of fuel, or both return with the same generator and the same new splashes. -/
theorem trace_loop_frame (sqrt : K → K) (lt : LT K R X) (lens_point : Double3 K) :
    ∀ (fuel : Nat) (path : Path K) (st st' : State K R), st.prng = st'.prng →
      (trace_loop sqrt lt lens_point fuel path st = none ∧
        trace_loop sqrt lt lens_point fuel path st' = none) ∨
      ∃ (r r' : State K R) (d : List (Splash K)),
        trace_loop sqrt lt lens_point fuel path st = some r ∧
        trace_loop sqrt lt lens_point fuel path st' = some r' ∧
        r.prng = r'.prng ∧ r.splashes = d ++ st.splashes ∧ r'.splashes = d ++ st'.splashes := by
  intro fuel
  induction fuel with
  | zero => intro path st st' _; exact Or.inl ⟨rfl, rfl⟩
  | succ n ih =>
    intro path st st' hp
    obtain ⟨h1, h2, d, h3, h4⟩ := trace_step_frame sqrt lt lens_point path st st' hp
    unfold trace_loop
    rcases hstep : trace_step sqrt lt lens_point path st with ⟨st1, _ | next⟩
    · rcases hstep' : trace_step sqrt lt lens_point path st' with ⟨st1', _ | next'⟩
      · rw [hstep, hstep'] at h2
        rw [hstep] at h3
        rw [hstep'] at h4
        exact Or.inr ⟨st1, st1', d, rfl, rfl, h2, h3, h4⟩
      · rw [hstep, hstep'] at h1; cases h1
    · rcases hstep' : trace_step sqrt lt lens_point path st' with ⟨st1', _ | next'⟩
      · rw [hstep, hstep'] at h1; cases h1
      · rw [hstep, hstep'] at h1 h2
        rw [hstep] at h3
        rw [hstep'] at h4
        simp only [Option.some.injEq] at h1
        subst h1
        rcases ih next st1 st1' h2 with ⟨e1, e2⟩ | ⟨r, r', d2, e1, e2, e3, e4, e5⟩
        · exact Or.inl ⟨e1, e2⟩
        · refine Or.inr ⟨r, r', d2 ++ d, e1, e2, e3, ?_, ?_⟩
          · rw [e4]; simp only at h3; rw [h3, List.append_assoc]
          · rw [e5]; simp only at h4; rw [h4, List.append_assoc]

theorem trace_emission_path_frame (sqrt : K → K) (lt : LT K R X) (fuel : Nat)
    (st st' : State K R) (hp : st.prng = st'.prng) :
    (trace_emission_path sqrt lt fuel st = none ∧
      trace_emission_path sqrt lt fuel st' = none) ∨
    ∃ (r r' : State K R) (d : List (Splash K)),
      trace_emission_path sqrt lt fuel st = some r ∧
      trace_emission_path sqrt lt fuel st' = some r' ∧
      r.prng = r'.prng ∧ r.splashes = d ++ st.splashes ∧ r'.splashes = d ++ st'.splashes := by
  rw [trace_emission_path_eq, trace_emission_path_eq, hp]
  exact trace_loop_frame sqrt lt _ fuel _ _ _ rfl

theorem process_loop_frame (sqrt : K → K) (lt : LT K R X) (fuel : Nat) :
    ∀ (n : Nat) (st st' : State K R), st.prng = st'.prng →
      (process_loop sqrt lt fuel n st = none ∧ process_loop sqrt lt fuel n st' = none) ∨
      ∃ (r r' : State K R) (d : List (Splash K)),
        process_loop sqrt lt fuel n st = some r ∧
        process_loop sqrt lt fuel n st' = some r' ∧
        r.prng = r'.prng ∧ r.splashes = d ++ st.splashes ∧ r'.splashes = d ++ st'.splashes := by
  intro n
  induction n with
  | zero =>
    intro st st' hp
    exact Or.inr ⟨st, st', [], rfl, rfl, hp, rfl, rfl⟩
  | succ n ih =>
    intro st st' hp
    unfold process_loop
    rcases trace_emission_path_frame sqrt lt fuel st st' hp with
      ⟨e1, e2⟩ | ⟨r, r', d, e1, e2, e3, e4, e5⟩
    · rw [e1, e2]; exact Or.inl ⟨rfl, rfl⟩
    · rw [e1, e2]
      rcases ih r r' e3 with ⟨f1, f2⟩ | ⟨q, q', d2, f1, f2, f3, f4, f5⟩
      · exact Or.inl ⟨f1, f2⟩
      · refine Or.inr ⟨q, q', d2 ++ d, f1, f2, f3, ?_, ?_⟩
        · rw [f4, e4, List.append_assoc]
        · rw [f5, e5, List.append_assoc]

end Frame

end Integrator

section Determinism

open Integrator

variable {K : Type} [LinearOrderedField K] {R X : Type}

/-- C14. Determinism.  For a fixed scene, camera and configuration, the sequence
of splashes produced by `process(x, y)` is a function of `(x, y)` alone: started
from any two states (whatever their generator and whatever the sensor has already
received), `process(x, y)` either fails to return in both runs or adds the same
list of splashes `d` in both and leaves the same generator behind. -/
theorem process_deterministic (sqrt : K → K) (lt : LT K R X) (fuel : Nat) (x y : Nat)
    (st st' : State K R) :
    (process sqrt lt fuel x y st = none ∧ process sqrt lt fuel x y st' = none) ∨
    ∃ (r r' : State K R) (d : List (Splash K)),
      process sqrt lt fuel x y st = some r ∧ process sqrt lt fuel x y st' = some r' ∧
      r.splashes = d ++ st.splashes ∧ r'.splashes = d ++ st'.splashes ∧ r.prng = r'.prng := by
  unfold process
  rcases process_loop_frame sqrt lt fuel lt.max_samples
      { st with prng := lt.seed (process_seed x y) }
      { st' with prng := lt.seed (process_seed x y) } rfl with
    ⟨e1, e2⟩ | ⟨r, r', d, e1, e2, e3, e4, e5⟩
  · exact Or.inl ⟨e1, e2⟩
  · exact Or.inr ⟨r, r', d, e1, e2, e4, e5, e3⟩

end Determinism

/-! ## Initial throughput of a path emitted by a triangle -/

section InitialThroughput

open Integrator

variable {K : Type} [LinearOrderedField K] {R X O : Type}

/-- The loop variables set up by `trace_emission_path` when the selected emitter is
a triangle emitter: the ray leaves the sampled point along the sampled direction
and the throughput is `radiance * pi * triangle_area / p`. -/
theorem emission_start_triangle (sqrt : K → K) (hs : IsSqrt sqrt) (pi : K) (hpi : 0 < pi)
    (smp : Sampling K R O) (a b c : Double3 K) (energy : Colour K)
    (hnd : (b.sub a).cross (c.sub a) ≠ Double3.Zero) (p : K) (hp : 0 < p)
    (lt : LT K R X) (prng : R)
    (hem : lt.scene.emitter (lt.scene.random_emitter prng).1 =
      ((Emitter.Triangle.create sqrt smp a b c energy).toPolymorphic pi smp, p))
    (hcos : 0 < (smp.HemiSphere (smp.Triangle (lt.scene.random_emitter prng).2).2).1.z) :
    emission_start lt prng =
      ({ throughput := ((energy.scale pi).scale
            (1 / 2 * ((b.sub a).cross (c.sub a)).magnitude sqrt)).divide p
         ray := ⟨((Emitter.Triangle.create sqrt smp a b c energy).emit pi smp
              (lt.scene.random_emitter prng).2).1.point,
            ((Emitter.Triangle.create sqrt smp a b c energy).emit pi smp
              (lt.scene.random_emitter prng).2).1.direction, some lt.EPSILON_RAY⟩
         depth := 1 },
       lt.camera.position,
       ((Emitter.Triangle.create sqrt smp a b c energy).emit pi smp
         (lt.scene.random_emitter prng).2).2) := by
  have hm := Double3.magnitude_pos hs (Double3.dot_self_pos hnd)
  have hm' := hm.ne'
  have hpi' := hpi.ne'
  have hp' := hp.ne'
  have hcos' := hcos.ne'
  have ht : (emission_start lt prng).1.throughput =
      ((energy.scale pi).scale (1 / 2 * ((b.sub a).cross (c.sub a)).magnitude sqrt)).divide p := by
    unfold emission_start
    simp only [hem, Emitter.Triangle.toPolymorphic, Emitter.Triangle.emit,
      Emitter.Triangle.create, inv_pi, Colour.divide, Colour.scale]
    congr 1 <;> field_simp <;> ring
  have hr : (emission_start lt prng).1.ray =
      ⟨((Emitter.Triangle.create sqrt smp a b c energy).emit pi smp
          (lt.scene.random_emitter prng).2).1.point,
        ((Emitter.Triangle.create sqrt smp a b c energy).emit pi smp
          (lt.scene.random_emitter prng).2).1.direction, some lt.EPSILON_RAY⟩ := by
    unfold emission_start
    simp only [hem, Emitter.Triangle.toPolymorphic]
  have hg : (emission_start lt prng).2 =
      (lt.camera.position, ((Emitter.Triangle.create sqrt smp a b c energy).emit pi smp
        (lt.scene.random_emitter prng).2).2) := by
    unfold emission_start
    simp only [hem, Emitter.Triangle.toPolymorphic, Camera.sample_lens]
  have hd : (emission_start lt prng).1.depth = 1 := rfl
  have e : emission_start lt prng =
      ({ throughput := (emission_start lt prng).1.throughput
         ray := (emission_start lt prng).1.ray
         depth := (emission_start lt prng).1.depth }, (emission_start lt prng).2) := rfl
  rw [e, ht, hr, hg, hd]

/-- C16. For an area (triangle) emitter the initial path throughput does not depend
on the sampled point or direction: for a non-degenerate triangle, a selection
probability `p > 0` and an emitted sample with `cos(theta) > 0`,
`trace_emission_path` enters its loop with the throughput
`energy / (p * pdf_direction * pdf_area) = radiance * pi * triangle_area / p`, on
the ray that leaves the sampled point along the sampled direction. -/
theorem initial_throughput_constant (sqrt : K → K) (hs : IsSqrt sqrt) (pi : K) (hpi : 0 < pi)
    (smp : Sampling K R O) (a b c : Double3 K) (energy : Colour K)
    (hnd : (b.sub a).cross (c.sub a) ≠ Double3.Zero) (p : K) (hp : 0 < p)
    (lt : LT K R X) (fuel : Nat) (st : State K R)
    (hem : lt.scene.emitter (lt.scene.random_emitter st.prng).1 =
      ((Emitter.Triangle.create sqrt smp a b c energy).toPolymorphic pi smp, p))
    (hcos : 0 < (smp.HemiSphere (smp.Triangle (lt.scene.random_emitter st.prng).2).2).1.z) :
    trace_emission_path sqrt lt fuel st =
      trace_loop sqrt lt lt.camera.position fuel
        { throughput := ((energy.scale pi).scale
            (1 / 2 * ((b.sub a).cross (c.sub a)).magnitude sqrt)).divide p
          ray := ⟨((Emitter.Triangle.create sqrt smp a b c energy).emit pi smp
              (lt.scene.random_emitter st.prng).2).1.point,
            ((Emitter.Triangle.create sqrt smp a b c energy).emit pi smp
              (lt.scene.random_emitter st.prng).2).1.direction, some lt.EPSILON_RAY⟩
          depth := 1 }
        { st with prng := ((Emitter.Triangle.create sqrt smp a b c energy).emit pi smp
            (lt.scene.random_emitter st.prng).2).2 } ∧
    ((Emitter.Triangle.create sqrt smp a b c energy).emit pi smp
        (lt.scene.random_emitter st.prng).2).1.energy.divide
      (p * ((Emitter.Triangle.create sqrt smp a b c energy).emit pi smp
          (lt.scene.random_emitter st.prng).2).1.pdf_direction *
        ((Emitter.Triangle.create sqrt smp a b c energy).emit pi smp
          (lt.scene.random_emitter st.prng).2).1.pdf_area) =
      ((energy.scale pi).scale (1 / 2 * ((b.sub a).cross (c.sub a)).magnitude sqrt)).divide p := by
  have he := emission_start_triangle sqrt hs pi hpi smp a b c energy hnd p hp lt st.prng hem hcos
  refine ⟨?_, ?_⟩
  · show trace_loop sqrt lt (emission_start lt st.prng).2.1 fuel (emission_start lt st.prng).1
      { st with prng := (emission_start lt st.prng).2.2 } = _
    rw [he]
  · have ht := congrArg (fun q => q.1.throughput) he
    simp only at ht
    rw [← ht]
    unfold emission_start
    simp only [hem, Emitter.Triangle.toPolymorphic]

/-- The connection made at the wall by `triangleLT`: one splash at `(2, 1)` whose
colour is the throughput times `625/648`. -/
theorem triangle_wall_connect (fd : Double3 ℝ) (t : Colour ℝ) (splashes : List (Splash ℝ)) :
    connect Real.sqrt (triangleLT ℝ Real.sqrt Real.pi) Double3.Zero (wallMaterial ℝ)
      { point := ⟨0, 2, 0⟩, from_direction := fd, material_id := 0, rest := () } t splashes =
      { x := 2
        y := 1
        colour := ⟨t.r * (625 / 648), t.g * (625 / 648), t.b * (625 / 648)⟩ } :: splashes := by
  obtain ⟨hs, hp⟩ := frontCamera_axis (d := 2) two_pos Double3.Zero
  have hn := normalise_axis_real (d := 2) two_pos
  have hm := magnitude_axis_real (d := 2) two_pos
  rw [connect_eq]
  simp only [triangleLT, wallLT, LT.create, wallScene, wallMaterial, splash_value,
    evaluate_direction, evaluate_distance, hs, hp, hn, hm, Bool.not_false, if_true,
    Colour.scale, Colour.mul, Colour.divide, Double3.Y]
  have e : ∀ u : ℝ, u * 1 * 1 * 1 * (625 / 162) / (2 * 2) = u * (625 / 648) :=
    fun u => by ring
  simp only [e]

/-- C16, at the triangle `(0,0,0), (1,0,0), (0,1,0)` with radiance `(5, 5, 5)`,
selection probability 1/2 and the hemisphere sample at the pole, in the wall scene
with that triangle as its emitter: the path starts with throughput
`5 * pi * (1/2) / (1/2)` and its single splash is `5 * pi * 625/648` per channel. -/
theorem initial_throughput_constant_witness :
    IsSqrt Real.sqrt ∧ (0 : ℝ) < Real.pi ∧ (0 : ℝ) < 1 / 2 ∧
    ((⟨1, 0, 0⟩ : Double3 ℝ).sub ⟨0, 0, 0⟩).cross ((⟨0, 1, 0⟩ : Double3 ℝ).sub ⟨0, 0, 0⟩)
      ≠ Double3.Zero ∧
    trace_emission_path Real.sqrt (triangleLT ℝ Real.sqrt Real.pi) 1 ⟨(), [], 0, 0⟩ =
      trace_loop Real.sqrt (triangleLT ℝ Real.sqrt Real.pi) Double3.Zero 1
        { throughput := (((⟨5, 5, 5⟩ : Colour ℝ).scale Real.pi).scale
            (1 / 2 * (((⟨1, 0, 0⟩ : Double3 ℝ).sub ⟨0, 0, 0⟩).cross
              ((⟨0, 1, 0⟩ : Double3 ℝ).sub ⟨0, 0, 0⟩)).magnitude Real.sqrt)).divide (1 / 2)
          ray := ⟨((Emitter.Triangle.create Real.sqrt (constantSampling ℝ) ⟨0, 0, 0⟩ ⟨1, 0, 0⟩
                ⟨0, 1, 0⟩ ⟨5, 5, 5⟩).emit Real.pi (constantSampling ℝ) ()).1.point,
              ((Emitter.Triangle.create Real.sqrt (constantSampling ℝ) ⟨0, 0, 0⟩ ⟨1, 0, 0⟩
                ⟨0, 1, 0⟩ ⟨5, 5, 5⟩).emit Real.pi (constantSampling ℝ) ()).1.direction,
              some (1 / 1000)⟩
          depth := 1 } ⟨(), [], 0, 0⟩ ∧
    trace_emission_path Real.sqrt (triangleLT ℝ Real.sqrt Real.pi) 1 ⟨(), [], 0, 0⟩ =
      some ⟨(), [{ x := 2
                   y := 1
                   colour := ⟨5 * Real.pi * (625 / 648), 5 * Real.pi * (625 / 648),
                     5 * Real.pi * (625 / 648)⟩ }], 1, 1⟩ := by
  have hnd : ((⟨1, 0, 0⟩ : Double3 ℝ).sub ⟨0, 0, 0⟩).cross
      ((⟨0, 1, 0⟩ : Double3 ℝ).sub ⟨0, 0, 0⟩) ≠ Double3.Zero := by
    intro h
    have := congrArg Double3.z h
    simp [Double3.cross, Double3.sub, Double3.Zero] at this
  have h := (initial_throughput_constant Real.sqrt isSqrt_real Real.pi Real.pi_pos
      (constantSampling ℝ) ⟨0, 0, 0⟩ ⟨1, 0, 0⟩ ⟨0, 1, 0⟩ ⟨5, 5, 5⟩ hnd (1 / 2) (by norm_num)
      (triangleLT ℝ Real.sqrt Real.pi) 1 ⟨(), [], 0, 0⟩ rfl
      (by simp [constantSampling, Double3.Z])).1
  refine ⟨isSqrt_real, Real.pi_pos, by norm_num, hnd, h, ?_⟩
  have hmag : (((⟨1, 0, 0⟩ : Double3 ℝ).sub ⟨0, 0, 0⟩).cross
      ((⟨0, 1, 0⟩ : Double3 ℝ).sub ⟨0, 0, 0⟩)).magnitude Real.sqrt = 1 :=
    Double3.magnitude_of_unit isSqrt_real (by simp [Double3.dot, Double3.cross, Double3.sub])
  rw [h, hmag]
  unfold trace_loop
  rw [trace_step_diffuse Real.sqrt (triangleLT ℝ Real.sqrt Real.pi) _ _ _ rfl rfl]
  have hcap : (1 + 1) % 256 > (triangleLT ℝ Real.sqrt Real.pi).max_path_length := by decide
  have hi : ∀ q : Path ℝ, step_idata (triangleLT ℝ Real.sqrt Real.pi) q =
      { point := ⟨0, 2, 0⟩, from_direction := q.ray.direction, material_id := 0, rest := () } :=
    fun _ => rfl
  have hmat : ∀ q : Path ℝ, step_material (triangleLT ℝ Real.sqrt Real.pi) q = wallMaterial ℝ :=
    fun _ => rfl
  have hpos : (triangleLT ℝ Real.sqrt Real.pi).camera.position = Double3.Zero := rfl
  simp only [hcap, if_true, hi, hmat, hpos, triangle_wall_connect]
  simp only [Colour.scale, Colour.divide]
  norm_num

end InitialThroughput

/-! ## The lens point of a connection -/

section LensPoint

open Integrator

variable {K : Type} [LinearOrderedField K] {R X : Type}

end LensPoint

end PhotonTracer
